import Mathlib

/-!
Verification development for the `python-whatsappy` client.

Shallow embedding of `src/whatsappy/stream.py` (the binary stanza codec) and of
the parts of `src/whatsappy/client.py` that the properties below concern.

Modelling conventions:
* Python byte strings (`str` in Python 2) are `List Nat`, one entry per byte.
* Python ints are `Nat` where the source only ever produces non-negative
  values, and `Int` where a subtraction in the source can go negative
  (token ids: `token - 0xED` can be negative, and `chr` of a negative value
  raises in Python).
* The token dictionary (`whatsappy/tokens.py`) is not part of the sources;
  following the specification it is an external pair of pure functions,
  modelled as an explicit `TokTable` parameter.  `tok2str` is total here
  (the dictionary is a fixed table); theorems that need the two directions
  to agree take that as an explicit hypothesis.
* Fallible Python code (raised exceptions) returns `Except`/`Option`.
  Reader routines additionally return the buffer state; an exception is
  paired with the buffer as it stood when the exception was raised, which
  mirrors the mutable `self.buf` of the source.
* The recursive-descent reader takes an explicit recursion budget (`fuel`).
  `RErr.fuelOut` is a modelling artifact: it is never produced when the
  budget exceeds the nesting depth of the input, and the entry points
  instantiate the budget from the buffer length, which suffices for every
  input exercised below.
-/

/-- Errors raised by the reader: `MessageIncomplete`, `EndOfStream`,
`StreamError`, `ValueError`/`TypeError` (collapsed), plus the fuel artifact. -/
inductive RErr where
  | incomplete
  | endOfStream
  | streamError
  | valueError
  | fuelOut
deriving DecidableEq, Repr

/-- Result of a reader step: the outcome together with the remaining buffer. -/
abbrev RRes (α : Type) := Except RErr α × List Nat

/-- Sequencing of reader steps: propagate an exception, otherwise continue
with the produced value and the updated buffer. -/
def rbind {α β : Type} (x : RRes α) (f : α → List Nat → RRes β) : RRes β :=
  match x with
  | (Except.ok a, buf) => f a buf
  | (Except.error e, buf) => (Except.error e, buf)

/-- The external token dictionary `(str2tok, tok2str)` of `whatsappy/tokens.py`
(out of scope per the spec, "assumed given as two pure functions"). -/
structure TokTable where
  str2tok : List Nat → Option Int
  tok2str : Int → List Nat

/-- Stanza tree (`whatsappy/node.py`, external; modelled from the spec:
a name, an ordered attribute mapping with unique keys, optional data and an
ordered child list; empty `data`/`children` stand for the absent (falsy)
Python values). -/
inductive NodeT where
  | mk (name : List Nat) (attrs : List (List Nat × List Nat))
      (data : List Nat) (children : List NodeT)

def NodeT.name : NodeT → List Nat
  | .mk n _ _ _ => n

def NodeT.attrs : NodeT → List (List Nat × List Nat)
  | .mk _ a _ _ => a

def NodeT.data : NodeT → List Nat
  | .mk _ _ d _ => d

def NodeT.children : NodeT → List NodeT
  | .mk _ _ _ c => c

/-- Python 1-based? no: `"start"` as bytes. -/
def startName : List Nat := [115, 116, 97, 114, 116]

/-! ## Writer (stream.py, class Writer) -/

/-- `Writer.token`: a single byte for ids below `0xF5`, the `0xFE` secondary
page up to `0x1F4`, nothing beyond.  `chr` of a negative value raises, hence
the `0 ≤ t` guard. -/
def Writer.token (t : Int) : Option (List Nat) :=
  if t < 0xF5 then
    if 0 ≤ t then some [t.toNat] else none
  else if t ≤ 0x1F4 then
    some [0xFE, (t - 0xF5).toNat]
  else none

/-- `Writer.int8`: `chr(value & 0xFF)`. -/
def Writer.int8 (v : Nat) : List Nat := [v &&& 0xFF]

/-- `Writer.int16`: two bytes, big endian, masked as in the source. -/
def Writer.int16 (v : Nat) : List Nat :=
  [(v &&& 0xFF00) >>> 8, (v &&& 0x00FF) >>> 0]

/-- `Writer.int24`: three bytes, big endian, masked as in the source. -/
def Writer.int24 (v : Nat) : List Nat :=
  [(v &&& 0xFF0000) >>> 16, (v &&& 0x00FF00) >>> 8, (v &&& 0x0000FF) >>> 0]

/-- `Writer.bytes`: raw bytes with a `0xFC` (1-byte length) or `0xFD`
(3-byte length) leader. -/
def Writer.bytes (s : List Nat) : List Nat :=
  if s.length > 0xFF then 0xFD :: (Writer.int24 s.length ++ s)
  else 0xFC :: (Writer.int8 s.length ++ s)

/-- `Writer.list_start`. -/
def Writer.list_start (l : Nat) : List Nat :=
  if l = 0 then [0x00]
  else if l ≤ 0xFF then [0xF8, l]
  else 0xF9 :: Writer.int16 l

/-- `str.partition` at the first `'@'` (byte 64): the part before and the part
after the separator. -/
def partAt : List Nat → List Nat × List Nat
  | [] => ([], [])
  | c :: r =>
    if c = 64 then ([], r)
    else
      let p := partAt r
      (c :: p.1, p.2)

mutual

/-- `Writer.string`: dictionary token when `str2tok` knows the string (ids
above `0xEB` go through the `0xEC` page), else JID when the string contains
`'@'`, else raw bytes. -/
def Writer.string (tt : TokTable) (s : List Nat) : Option (List Nat) :=
  match tt.str2tok s with
  | some t =>
    if t > 0xEB then do
      let a ← Writer.token 0xEC
      let b ← Writer.token (t - 0xED)
      pure (a ++ b)
    else Writer.token t
  | none =>
    if h : 64 ∈ s then Writer.jid tt (partAt s).1 (partAt s).2
    else some (Writer.bytes s)
termination_by 2 * s.length + 1
decreasing_by
  have key : ∀ (l : List Nat), 64 ∈ l →
      (partAt l).1.length < l.length ∧ (partAt l).2.length < l.length := by
    intro l hl
    induction l with
    | nil => cases hl
    | cons c r ih =>
      by_cases hc : c = 64
      · refine ⟨?_, ?_⟩ <;> simp [partAt, hc]
      · rcases List.mem_cons.mp hl with h1 | h2
        · exact absurd h1.symm hc
        · have hr := ih h2
          refine ⟨?_, ?_⟩ <;> simp [partAt, hc] <;> omega
  have h3 := Nat.max_lt.mpr ⟨(key s h).1, (key s h).2⟩
  omega

/-- `Writer.jid`: `0xFA`, then the user part (`0x00` when empty), then the
server part. -/
def Writer.jid (tt : TokTable) (user server : List Nat) : Option (List Nat) := do
  let u ← if user ≠ [] then Writer.string tt user else some [0x00]
  let v ← Writer.string tt server
  pure (0xFA :: (u ++ v))
termination_by 2 * max user.length server.length + 2
decreasing_by
· have h1 := Nat.le_max_left user.length server.length
  omega
· have h1 := Nat.le_max_right user.length server.length
  omega

end

/-- `Writer.attributes`: the key and value of each attribute, in mapping
order, each through `Writer.string`. -/
def Writer.attributes (tt : TokTable) : List (List Nat × List Nat) → Option (List Nat)
  | [] => some []
  | (k, v) :: r => do
    let ks ← Writer.string tt k
    let vs ← Writer.string tt v
    let rs ← Writer.attributes tt r
    pure (ks ++ vs ++ rs)

mutual

/-- `Writer._node`: list header of `1 + 2·|attrs| (+1 data) (+1 children)`
slots, the name, the attributes, then the data (always through
`Writer.bytes`) and the children. -/
def Writer._node (tt : TokTable) : NodeT → Option (List Nat)
  | NodeT.mk nm attrs data children => do
    let length := 1 + (if attrs ≠ [] then 2 * attrs.length else 0)
        + (if children.isEmpty then 0 else 1) + (if data ≠ [] then 1 else 0)
    let sName ← Writer.string tt nm
    let sAttrs ← Writer.attributes tt attrs
    let sData := if data ≠ [] then Writer.bytes data else []
    let sChildren ←
      if children.isEmpty then pure ([] : List Nat)
      else do
        let cs ← Writer._nodeList tt children
        pure (Writer.list_start children.length ++ cs)
    pure (Writer.list_start length ++ sName ++ sAttrs ++ sData ++ sChildren)

/-- The recursive child loop of `Writer._node`. -/
def Writer._nodeList (tt : TokTable) : List NodeT → Option (List Nat)
  | [] => some []
  | c :: r => do
    let a ← Writer._node tt c
    let b ← Writer._nodeList tt r
    pure (a ++ b)

end

/-- `Writer.node`: frame a stanza.  `wEnc` is the writer's installed
`self.encrypt` (collapsed to its one-argument call form used by the source),
`encArg` the optional `encrypt` argument; `None` defaults to "encrypt iff a
cipher is installed". -/
def Writer.node (tt : TokTable) (wEnc : Option (List Nat → List Nat))
    (n : Option NodeT) (encArg : Option Bool) : Option (List Nat × List Nat) := do
  let plain ← match n with
    | none => some [0x00]
    | some nd => Writer._node tt nd
  let enc := encArg.getD wEnc.isSome
  if enc then do
    let f ← wEnc
    let buf := f plain
    let first := (8 <<< 4) ||| ((buf.length &&& 16711680) >>> 16)
    let second := (buf.length &&& 65280) >>> 8
    let third := buf.length &&& 255
    pure (Writer.int24 (((first <<< 16) ||| (second <<< 8)) ||| third) ++ buf, plain)
  else
    pure (Writer.int24 plain.length ++ plain, plain)

/-! ## Reader (stream.py, class Reader) -/

/-- `Reader._consume`: take `size` bytes off the front, `StreamError` when
fewer are buffered. -/
def Reader._consume (size : Nat) (buf : List Nat) : RRes (List Nat) :=
  if size > buf.length then (Except.error RErr.streamError, buf)
  else (Except.ok (buf.take size), buf.drop size)

/-- `Reader.peek_int8`: `ord` of the first byte without consuming
(`ord` of an empty slice raises). -/
def Reader.peek_int8 (buf : List Nat) : RRes Nat :=
  match buf.take 1 with
  | [c] => (Except.ok c, buf)
  | _ => (Except.error RErr.valueError, buf)

/-- `Reader.peek_int24`: big-endian peek of the first three bytes. -/
def Reader.peek_int24 (buf : List Nat) : RRes Nat :=
  match buf.take 3 with
  | [a, b, c] => (Except.ok (((a <<< 16) ||| (b <<< 8)) ||| c), buf)
  | _ => (Except.error RErr.valueError, buf)

/-- `Reader.int8`. -/
def Reader.int8 (buf : List Nat) : RRes Nat :=
  rbind (Reader._consume 1 buf) fun s buf1 =>
    match s with
    | [c] => (Except.ok c, buf1)
    | _ => (Except.error RErr.valueError, buf1)

/-- `Reader.int16`. -/
def Reader.int16 (buf : List Nat) : RRes Nat :=
  rbind (Reader._consume 2 buf) fun s buf1 =>
    match s with
    | [a, b] => (Except.ok ((a <<< 8) ||| b), buf1)
    | _ => (Except.error RErr.valueError, buf1)

/-- `Reader.int24`. -/
def Reader.int24 (buf : List Nat) : RRes Nat :=
  rbind (Reader._consume 3 buf) fun s buf1 =>
    match s with
    | [a, b, c] => (Except.ok (((a <<< 16) ||| (b <<< 8)) ||| c), buf1)
    | _ => (Except.error RErr.valueError, buf1)

/-- `Reader.list_start`: `0x00 → 0`, `0xF8 → u8`, `0xF9 → u16`, otherwise an
error. -/
def Reader.list_start (buf : List Nat) : RRes Nat :=
  rbind (Reader.int8 buf) fun t buf1 =>
    if t = 0x00 then (Except.ok 0, buf1)
    else if t = 0xF8 then Reader.int8 buf1
    else if t = 0xF9 then Reader.int16 buf1
    else (Except.error RErr.valueError, buf1)

/-- The `0xFF` nibble-packed decimal decoding loop of `Reader.string`. -/
def nibbleDecode (data : List Nat) (cnt : Nat) : List Nat :=
  (List.range cnt).map fun i =>
    let shift := 4 * (1 - i % 2)
    let decimal := ((data.getD (i / 2) 0) &&& (15 <<< shift)) >>> shift
    if decimal < 10 then 48 + decimal else decimal - 10 + 45

/-- `Reader.string`: inverse of the writer's string alphabet. -/
def Reader.string (tt : TokTable) : Nat → List Nat → RRes (List Nat)
  | 0, buf => (Except.error RErr.fuelOut, buf)
  | fuel + 1, buf =>
    rbind (Reader.int8 buf) fun t buf1 =>
    if t = 0x00 then (Except.ok [], buf1)
    else if 0x02 < t ∧ t < 0xF5 then
      if t = 0xEC then
        rbind (Reader.int8 buf1) fun b buf2 =>
          (Except.ok (tt.tok2str ((0xED : Int) + b)), buf2)
      else (Except.ok (tt.tok2str (t : Int)), buf1)
    else if t = 0xFA then
      rbind (Reader.string tt fuel buf1) fun u buf2 =>
      rbind (Reader.string tt fuel buf2) fun v buf3 =>
      (Except.ok (u ++ 64 :: v), buf3)
    else if t = 0xFC then
      rbind (Reader.int8 buf1) fun n buf2 => Reader._consume n buf2
    else if t = 0xFD then
      rbind (Reader.int24 buf1) fun n buf2 => Reader._consume n buf2
    else if t = 0xFE then
      rbind (Reader.int8 buf1) fun b buf2 =>
        (Except.ok (tt.tok2str ((0xF5 : Int) + b)), buf2)
    else if t = 0xFF then
      rbind (Reader.int8 buf1) fun nib buf2 =>
      let size := nib &&& 0x7F
      let cnt := size * 2 - (if nib &&& 0x80 ≠ 0 then 1 else 0)
      rbind (Reader._consume size buf2) fun data buf3 =>
      (Except.ok (nibbleDecode data cnt), buf3)
    else (Except.error RErr.valueError, buf1)

/-- `Reader.attributes`: read `count` name/value string pairs. -/
def Reader.attributes (tt : TokTable) (fuel : Nat) :
    Nat → List Nat → RRes (List (List Nat × List Nat))
  | 0, buf => (Except.ok [], buf)
  | k + 1, buf =>
    rbind (Reader.string tt fuel buf) fun nm buf1 =>
    rbind (Reader.string tt fuel buf1) fun v buf2 =>
    rbind (Reader.attributes tt fuel k buf2) fun r buf3 =>
    (Except.ok ((nm, v) :: r), buf3)

/-- The `for i in range(cnt)` loop of `Reader.list`, abstracted over the
node parser `rd` (which is `Reader._read` at the next budget level). -/
def readLoop (rd : List Nat → RRes NodeT) : Nat → List Nat → RRes (List NodeT)
  | 0, buf => (Except.ok [], buf)
  | k + 1, buf =>
    rbind (rd buf) fun c buf1 =>
    rbind (readLoop rd k buf1) fun r buf2 =>
    (Except.ok (c :: r), buf2)

/-- `Reader._read`: one node.  List header, `0x01`/`0x02` sentinels, name,
attributes (`(length - 1) / 2` pairs), then children (on `0xF8`/`0xF9`)
or data when the header count is even.  `Reader.list` (a list header
followed by that many recursive `Reader._read`s) is inlined at its only
call site via `readLoop`. -/
def Reader._read (tt : TokTable) : Nat → List Nat → RRes NodeT
  | 0, buf => (Except.error RErr.fuelOut, buf)
  | fuel + 1, buf =>
    rbind (Reader.list_start buf) fun length buf1 =>
    rbind (Reader.peek_int8 buf1) fun token buf2 =>
    if token = 0x01 then
      rbind (Reader._consume 1 buf2) fun _ buf3 =>
      rbind (Reader.attributes tt (fuel + 1) ((length - 1) / 2) buf3) fun attrs buf4 =>
      (Except.ok (NodeT.mk startName attrs [] []), buf4)
    else if token = 0x02 then
      rbind (Reader._consume 1 buf2) fun _ buf3 =>
      (Except.error RErr.endOfStream, buf3)
    else
      rbind (Reader.string tt (fuel + 1) buf2) fun nm buf3 =>
      rbind (Reader.attributes tt (fuel + 1) ((length - 1) / 2) buf3) fun attrs buf4 =>
      if length % 2 = 0 then
        rbind (Reader.peek_int8 buf4) fun t2 buf5 =>
        if t2 = 0xF8 ∨ t2 = 0xF9 then
          rbind (Reader.list_start buf5) fun cnt buf6 =>
          rbind (readLoop (Reader._read tt fuel) cnt buf6) fun cs buf7 =>
          (Except.ok (NodeT.mk nm attrs [] cs), buf7)
        else
          rbind (Reader.string tt (fuel + 1) buf5) fun d buf6 =>
          (Except.ok (NodeT.mk nm attrs d []), buf6)
      else (Except.ok (NodeT.mk nm attrs [] []), buf4)

/-- `Reader.read`: frame dispatch.  Peek the 3-byte header; `Incomplete`
when fewer than 3, or when the 20-bit length exceeds the *whole* buffer
(header included — the source compares against `len(self.buf)` before the
header is consumed); otherwise consume the header and parse, decrypting
first when flag bit `0x8` is set.  Returns `(node, plaintext)` and the new
buffer.  The recursion budgets are instantiated from the buffer lengths,
which exceed any possible nesting depth. -/
def Reader.read (tt : TokTable) (dec : List Nat → List Nat) (buf : List Nat) :
    RRes (NodeT × List Nat) :=
  if buf.length ≤ 2 then (Except.error RErr.incomplete, buf)
  else
    rbind (Reader.peek_int24 buf) fun v buf0 =>
    let flags := ((v >>> 16) &&& 0xF0) >>> 4
    let length := (v &&& 0xFFFF) ||| (((v >>> 16) &&& 0x0F) <<< 16)
    if length > buf0.length then (Except.error RErr.incomplete, buf0)
    else
      rbind (Reader.int24 buf0) fun _ buf1 =>
      if flags &&& 8 ≠ 0 then
        rbind (Reader._consume length buf1) fun ct buf2 =>
        let pt := dec ct
        (match Reader._read tt (pt.length + 1) pt with
         | (Except.ok nd, _) => (Except.ok (nd, pt), buf2)
         | (Except.error e, _) => (Except.error e, buf2))
      else
        let plain := buf1.take length
        (match Reader._read tt (buf1.length + 1) buf1 with
         | (Except.ok nd, buf2) => (Except.ok (nd, plain), buf2)
         | (Except.error e, buf2) => (Except.error e, buf2))

/-! ## Well-formedness predicates and size measures used by the
round-trip statements. -/

/-- Strings the writer encodes invertibly: a dictionary id in
`[0x03, 0xEB] ∪ [0xED, 0x1E1]` (ids `0x00..0x02` collide with the reader's
sentinels, `0xEC` makes the writer call `chr(-1)`, and ids above `0x1E1`
yield the malformed `0xEC 0xFE _` pair or no encoding at all, see the C9
theorem), or absence from the dictionary with, recursively, decodable JID
parts, or raw bytes shorter than `2^24`. -/
def StrOK (tt : TokTable) (s : List Nat) : Bool :=
  match tt.str2tok s with
  | some t => decide ((3 ≤ t ∧ t ≤ 0xEB) ∨ (0xED ≤ t ∧ t ≤ 0x1E1))
  | none =>
    if h : 64 ∈ s then
      ((partAt s).1.isEmpty || StrOK tt (partAt s).1) && StrOK tt (partAt s).2
    else decide (s.length < 16777216)
termination_by s.length
decreasing_by
all_goals
  have key : ∀ (l : List Nat), 64 ∈ l →
      (partAt l).1.length < l.length ∧ (partAt l).2.length < l.length := by
    intro l hl
    induction l with
    | nil => cases hl
    | cons c r ih =>
      by_cases hc : c = 64
      · refine ⟨?_, ?_⟩ <;> simp [partAt, hc]
      · rcases List.mem_cons.mp hl with h1 | h2
        · exact absurd h1.symm hc
        · have hr := ih h2
          refine ⟨?_, ?_⟩ <;> simp [partAt, hc] <;> omega
  first
  | exact (key s h).1
  | exact (key s h).2

mutual

/-- Recursion budget sufficient to parse the encoding of a node: one step
plus the sizes of all strings and children. -/
def needN : NodeT → Nat
  | NodeT.mk nm attrs d cs =>
    1 + nm.length + (attrs.map (fun p => p.1.length + p.2.length)).sum
      + d.length + needNList cs

/-- Sum of `needN` over a child list. -/
def needNList : List NodeT → Nat
  | [] => 0
  | c :: r => needN c + needNList r

end

mutual

/-- Well-formed nodes for the (amended) round-trip: every string is `StrOK`,
data and children are not both present, and data length, child count and
attribute count fit the length fields of the wire format. -/
def NodeOK (tt : TokTable) : NodeT → Bool
  | NodeT.mk nm attrs d cs =>
    StrOK tt nm &&
    attrs.all (fun p => StrOK tt p.1 && StrOK tt p.2) &&
    (d.isEmpty || cs.isEmpty) &&
    decide (d.length < 16777216) &&
    decide (cs.length ≤ 0xFFFF) &&
    decide (attrs.length ≤ 0x7FFE) &&
    NodeOKList tt cs

/-- `NodeOK` on every element of a child list. -/
def NodeOKList (tt : TokTable) : List NodeT → Bool
  | [] => true
  | c :: r => NodeOK tt c && NodeOKList tt r

end

/-! ## Session layer (client.py, class Client) — the state and handlers the
claims concern.  Socket I/O and the incoming dispatch loop are outside the
pure model; each handler is modelled as a function from the session state
and the inbound node to the new state and the nodes it writes. -/

/-- The abstract cipher of `whatsappy/encryption.py` (external; modelled
from the spec: derived keys, `encrypt(bytes, prepend_mac) -> bytes` and
`decrypt(bytes) -> bytes`). -/
structure Encryption where
  keys : List (List Nat)
  encrypt : List Nat → Bool → List Nat
  decrypt : List Nat → List Nat

/-- The session state fields of `Client` that the claims touch. -/
structure ClientState where
  number : List Nat
  secret : List Nat
  nickname : List Nat
  authBlob : Option (List Nat)
  accountInfo : Option (List (List Nat × List Nat))
  counter : Nat
  socketOpen : Bool
  writerEncrypt : Option (List Nat → Bool → List Nat)
  readerDecrypt : Option (List Nat → List Nat)

/-- `Client.__init__`: fresh session state. -/
def Client.initState (number secret nickname : List Nat)
    (authBlob : Option (List Nat)) : ClientState :=
  { number := number, secret := secret, nickname := nickname,
    authBlob := authBlob, accountInfo := none, counter := 0,
    socketOpen := false, writerEncrypt := none, readerDecrypt := none }

/-- `Client._disconnect`: close the socket, clear `account_info`, reset the
counter. -/
def Client._disconnect (st : ClientState) : ClientState :=
  { st with socketOpen := false, accountInfo := none, counter := 0 }

/-- ASCII decimal rendering (`"%d"`). -/
def natDec (n : Nat) : List Nat := (Nat.toDigits 10 n).map Char.toNat

/-- `Client._msgid`: `"%s-%s-%d" % (prefix, utils.timestamp(), self.counter)`.
The timestamp is a parameter (`utils` is external).  Note the method reads
but never changes `self.counter`; the returned state is the input state. -/
def Client._msgid (st : ClientState) (pfx ts : List Nat) :
    List Nat × ClientState :=
  (pfx ++ 45 :: (ts ++ 45 :: natDec st.counter), st)

/-- `"response"`. -/
def respName : List Nat := [114, 101, 115, 112, 111, 110, 115, 101]

/-- `Client._challenge`: derive an `Encryption` from `(secret, node.data)`,
install `writer.encrypt`/`reader.decrypt`, and build
`Node("response", data=encryption.encrypt(number + node.data + timestamp,
False))`, written with `encrypt=False`.  The constructor `mkE` and the
timestamp are parameters (both external); the returned node and flag are
the arguments the handler passes to `self._write`, i.e. to `Writer.node`.
The trailing `self._incoming()` is socket I/O, outside the pure model. -/
def Client._challenge (mkE : List Nat → List Nat → Encryption)
    (st : ClientState) (node : NodeT) (ts : List Nat) :
    ClientState × NodeT × Option Bool :=
  let e := mkE st.secret node.data
  let st1 := { st with writerEncrypt := some e.encrypt,
                       readerDecrypt := some e.decrypt }
  let data := st.number ++ node.data ++ ts
  (st1, NodeT.mk respName [] (e.encrypt data false) [], some false)

/-- Adapt the installed two-argument cipher to the one-argument call form
`self.encrypt(buf)` used by `Writer.node`.  The `prepend_mac` default of the
external cipher is not visible in the sources; it is irrelevant wherever
this appears below because the frames in question pass `encrypt=False`. -/
def wAdapt (f : Option (List Nat → Bool → List Nat)) :
    Option (List Nat → List Nat) :=
  f.map (fun g b => g b true)

/-- `"s.whatsapp.net"` (`Client.SERVER`). -/
def serverBytes : List Nat :=
  [115, 46, 119, 104, 97, 116, 115, 97, 112, 112, 46, 110, 101, 116]

/-- `"type"`. -/
def typeName : List Nat := [116, 121, 112, 101]

/-- `"get"`. -/
def getName : List Nat := [103, 101, 116]

/-- `"ping"`. -/
def pingName : List Nat := [112, 105, 110, 103]

/-- `"iq"`. -/
def iqName : List Nat := [105, 113]

/-- `"id"`. -/
def idName : List Nat := [105, 100]

/-- `"to"`. -/
def toName : List Nat := [116, 111]

/-- `"result"`. -/
def resultName : List Nat := [114, 101, 115, 117, 108, 116]

/-- Attribute lookup, `node["key"]` (first binding; keys are unique). -/
def NodeT.attr (n : NodeT) (k : List Nat) : Option (List Nat) :=
  n.attrs.lookup k

/-- `Client._iq`: nothing on an empty child list; `iq type="get"` with a
`ping` child is answered with `iq to=SERVER id=<id> type="result"`;
`type="result"` and everything else fall through (the source only logs).
Second component: the nodes written to the socket. -/
def Client._iq (st : ClientState) (node : NodeT) : ClientState × List NodeT :=
  if node.children.length = 0 then (st, [])
  else
    match node.children with
    | iq :: _ =>
      if node.attr typeName = some getName ∧ iq.name = pingName then
        (st, [NodeT.mk iqName
          [(toName, serverBytes), (idName, (node.attr idName).getD []),
           (typeName, resultName)] [] []])
      else (st, [])
    | [] => (st, [])

/-! ## Callback registry (client.py: register_callback, unregister_callback,
register_callback_and_wait, wait_for_callback).

A callback object is identified by an id; its static stanza name lives in
`CBInfo`, its mutable latch (`called`/`result`) in `CBWorld.latches`
(`none` = not called; `Except.error` = an `Exception` result).  Results are
`Nat`-valued: the claims only concern how results flow, not their type.
`self._incoming()` is abstracted as a world-transformer `step`, and the
`while` loop takes a budget `fuel` (`none` = the loop has not terminated
within the budget). -/

/-- A registered callback: identity plus stanza name. -/
structure CBInfo where
  id : Nat
  name : List Nat
deriving DecidableEq

/-- Registry (`defaultdict(list)` from stanza name to callback ids, newest
first) and latch store. -/
structure CBWorld where
  registry : List (List Nat × List Nat)
  latches : List (Option (Except Nat Nat))

/-- `callback.called`/`callback.result`: the latch of callback `i`. -/
def CBWorld.latch (w : CBWorld) (i : Nat) : Option (Except Nat Nat) :=
  w.latches.getD i none

/-- `self.callbacks[name].insert(0, id)` on a `defaultdict(list)`. -/
def regInsert (nm : List Nat) (i : Nat) :
    List (List Nat × List Nat) → List (List Nat × List Nat)
  | [] => [(nm, [i])]
  | (k, ids) :: r =>
    if k = nm then (k, i :: ids) :: r else (k, ids) :: regInsert nm i r

/-- `self.callbacks[name].remove(id)`: drop the first occurrence. -/
def regRemove (nm : List Nat) (i : Nat) :
    List (List Nat × List Nat) → List (List Nat × List Nat)
  | [] => []
  | (k, ids) :: r =>
    if k = nm then (k, ids.erase i) :: r else (k, ids) :: regRemove nm i r

/-- `Client.register_callback`: insert each callback at the head of its
name's list. -/
def Client.register_callback (cbs : List CBInfo) (w : CBWorld) : CBWorld :=
  cbs.foldl (fun w cb => { w with registry := regInsert cb.name cb.id w.registry }) w

/-- `Client.unregister_callback`. -/
def Client.unregister_callback (cbs : List CBInfo) (w : CBWorld) : CBWorld :=
  cbs.foldl (fun w cb => { w with registry := regRemove cb.name cb.id w.registry }) w

/-- The `while not called` loop of `Client.wait_for_callback`: scan the
given callbacks in order for a latched one; otherwise run one round of
`self._incoming()` (the `for … else` of the source) and retry. -/
def Client.waitLoop (step : CBWorld → CBWorld) (cbs : List CBInfo) :
    Nat → CBWorld → Option (CBWorld × CBInfo)
  | 0, _ => none
  | fuel + 1, w =>
    match cbs.find? (fun cb => (w.latch cb.id).isSome) with
    | some cb => some (w, cb)
    | none => Client.waitLoop step cbs fuel (step w)

/-- `Client.wait_for_callback`: drive the loop, unregister all the given
callbacks, then raise the latched result when it is an `Exception`,
otherwise return it. -/
def Client.wait_for_callback (step : CBWorld → CBWorld) (fuel : Nat)
    (cbs : List CBInfo) (w : CBWorld) : Option (CBWorld × Except Nat Nat) :=
  match Client.waitLoop step cbs fuel w with
  | none => none
  | some (w1, cb) =>
    let w2 := Client.unregister_callback cbs w1
    match w1.latch cb.id with
    | some (Except.error e) => some (w2, Except.error e)
    | some (Except.ok v) => some (w2, Except.ok v)
    | none => none

/-- `Client.register_callback_and_wait`: register, then wait.  The method
body has no `return` statement: the value `wait_for_callback` produces is
discarded and Python's `None` (here `Option.none`) is returned; a raised
`Exception` propagates unchanged. -/
def Client.register_callback_and_wait (step : CBWorld → CBWorld) (fuel : Nat)
    (cbs : List CBInfo) (w : CBWorld) :
    Option (CBWorld × Except Nat (Option Nat)) :=
  let w1 := Client.register_callback cbs w
  match Client.wait_for_callback step fuel cbs w1 with
  | none => none
  | some (w2, Except.error e) => some (w2, Except.error e)
  | some (w2, Except.ok _) => some (w2, Except.ok none)

/-! ## Concrete instances used by witnesses and counterexamples. -/

/-- The empty dictionary: every lookup misses.  Inputs built on it exercise
only the table-independent paths (raw bytes, JIDs, framing). -/
def emptyTok : TokTable := ⟨fun _ => none, fun _ => []⟩

/-- `"account"` (the dictionary string with id `0x03`, per the spec). -/
def accountBytes : List Nat := [97, 99, 99, 111, 117, 110, 116]

/-- Modelled from the spec: a placeholder spelling for the dictionary string
with id `0x1E2` (the dictionary holds ~500 strings with ids from `0x03`, so
such a string exists; its spelling is external to the sources). -/
def s482Bytes : List Nat := [115, 95, 52, 56, 50]

/-- Modelled from the spec: a placeholder spelling for the dictionary string
with id `0x1EB`. -/
def s491Bytes : List Nat := [115, 95, 52, 57, 49]

/-- Modelled from the spec: a placeholder spelling for the dictionary string
with id `0xF0`. -/
def s240Bytes : List Nat := [115, 95, 50, 52, 48]

/-- A concrete external cipher constructor for witnesses: `encrypt` appends
a 1-byte MAC, `decrypt` is the identity. -/
def mkE0 : List Nat → List Nat → Encryption :=
  fun _ _ => ⟨[], fun b _ => b ++ [0xAA], fun b => b⟩

/-- A fresh session for witnesses: number `"1"`, secret `"2"`. -/
def st0 : ClientState := Client.initState [0x31] [0x32] [] none

/-- A challenge stanza for witnesses: name `"c"`, data `"d"`. -/
def chal0 : NodeT := NodeT.mk [0x63] [] [0x64] []

/-- Modelled from the spec: the token dictionary (`tok2str`/`str2tok`,
external to the sources) is a fixed list of roughly 500 strings with ids
from `0x03` ("account") upward.  Only the four bindings exercised by the
concrete inputs below are populated; all other strings are absent. -/
def specTok : TokTable :=
  ⟨fun s =>
    if s = accountBytes then some 0x03
    else if s = s240Bytes then some 0xF0
    else if s = s482Bytes then some 0x1E2
    else if s = s491Bytes then some 0x1EB
    else none,
   fun t =>
    if t = 0x03 then accountBytes
    else if t = 0xF0 then s240Bytes
    else if t = 0x1E2 then s482Bytes
    else if t = 0x1EB then s491Bytes
    else []⟩

/-! # Theorems

First the supporting lemmas: facts about `partAt`, reduction lemmas for the
reader primitives, and the bit arithmetic of the integer encodings. -/

theorem partAt_eq (s : List Nat) (h : 64 ∈ s) :
    s = (partAt s).1 ++ 64 :: (partAt s).2 := by
  induction s with
  | nil => cases h
  | cons c r ih =>
    by_cases hc : c = 64
    · simp [partAt, hc]
    · rcases List.mem_cons.mp h with h1 | h2
      · exact absurd h1.symm hc
      · simpa [partAt, hc] using congrArg (c :: ·) (ih h2)

theorem partAt_fst_lt (s : List Nat) (h : 64 ∈ s) :
    (partAt s).1.length < s.length := by
  have := congrArg List.length (partAt_eq s h)
  simp at this
  omega

theorem partAt_snd_lt (s : List Nat) (h : 64 ∈ s) :
    (partAt s).2.length < s.length := by
  have := congrArg List.length (partAt_eq s h)
  simp at this
  omega

theorem partAt_fst_no_at (s : List Nat) : 64 ∉ (partAt s).1 := by
  induction s with
  | nil => simp [partAt]
  | cons c r ih =>
    by_cases hc : c = 64
    · simp [partAt, hc]
    · intro hm
      rw [show partAt (c :: r) = (c :: (partAt r).1, (partAt r).2) by
        simp [partAt, hc]] at hm
      rcases List.mem_cons.mp hm with h1 | h2
      · exact hc h1.symm
      · exact ih h2

@[simp] theorem rbind_ok {α β : Type} (a : α) (buf : List Nat)
    (f : α → List Nat → RRes β) : rbind (Except.ok a, buf) f = f a buf := rfl

@[simp] theorem rbind_error {α β : Type} (e : RErr) (buf : List Nat)
    (f : α → List Nat → RRes β) :
    rbind (Except.error e, buf) f = (Except.error e, buf) := rfl

@[simp] theorem consume_cons1 (c : Nat) (rest : List Nat) :
    Reader._consume 1 (c :: rest) = (Except.ok [c], rest) := by
  have h : ¬ (1 > (c :: rest).length) := by
    simp only [List.length_cons]; omega
  simp [Reader._consume, h]

@[simp] theorem int8_cons (c : Nat) (rest : List Nat) :
    Reader.int8 (c :: rest) = (Except.ok c, rest) := by
  simp [Reader.int8]

@[simp] theorem peek_int8_cons (c : Nat) (rest : List Nat) :
    Reader.peek_int8 (c :: rest) = (Except.ok c, c :: rest) := by
  simp [Reader.peek_int8]

@[simp] theorem int16_cons (a b : Nat) (rest : List Nat) :
    Reader.int16 (a :: b :: rest) = (Except.ok ((a <<< 8) ||| b), rest) := by
  unfold Reader.int16 Reader._consume
  rw [if_neg (by simp only [List.length_cons]; omega :
    ¬ (2 > (a :: b :: rest).length))]
  simp

@[simp] theorem int24_cons (a b c : Nat) (rest : List Nat) :
    Reader.int24 (a :: b :: c :: rest) =
      (Except.ok (((a <<< 16) ||| (b <<< 8)) ||| c), rest) := by
  unfold Reader.int24 Reader._consume
  rw [if_neg (by simp only [List.length_cons]; omega :
    ¬ (3 > (a :: b :: c :: rest).length))]
  simp

@[simp] theorem peek_int24_cons (a b c : Nat) (rest : List Nat) :
    Reader.peek_int24 (a :: b :: c :: rest) =
      (Except.ok (((a <<< 16) ||| (b <<< 8)) ||| c), a :: b :: c :: rest) := by
  simp [Reader.peek_int24]

theorem consume_append (s rest : List Nat) :
    Reader._consume s.length (s ++ rest) = (Except.ok s, rest) := by
  have h : ¬ (s.length > (s ++ rest).length) := by
    simp only [List.length_append]; omega
  simp [Reader._consume, h, List.take_left, List.drop_left]

theorem consume_append' (n : Nat) (s rest : List Nat) (h : s.length = n) :
    Reader._consume n (s ++ rest) = (Except.ok s, rest) := by
  subst h; exact consume_append s rest

/-! Bit arithmetic of the byte encodings. -/

theorem and_255 (v : Nat) : v &&& 255 = v % 256 := by
  have h := Nat.and_pow_two_sub_one_eq_mod v 8
  norm_num at h
  exact h

theorem and_15 (v : Nat) : v &&& 15 = v % 16 := by
  have h := Nat.and_pow_two_sub_one_eq_mod v 4
  norm_num at h
  exact h

theorem and_65535 (v : Nat) : v &&& 65535 = v % 65536 := by
  have h := Nat.and_pow_two_sub_one_eq_mod v 16
  norm_num at h
  exact h

theorem and_shift_mask (v m k : Nat) :
    v &&& (m <<< k) = ((v >>> k) &&& m) <<< k := by
  apply Nat.eq_of_testBit_eq
  intro i
  simp only [Nat.testBit_and, Nat.testBit_shiftLeft, Nat.testBit_shiftRight]
  by_cases hk : k ≤ i
  · simp [hk, Nat.add_sub_cancel' hk, Bool.and_left_comm, Bool.and_comm]
  · simp [hk]

theorem shiftLeft_shiftRight_same (x k : Nat) : (x <<< k) >>> k = x := by
  rw [Nat.shiftLeft_eq, Nat.shiftRight_eq_div_pow,
    Nat.mul_div_cancel _ (Nat.two_pow_pos k)]

theorem and_ff00 (v : Nat) : v &&& 65280 = ((v >>> 8) &&& 255) <<< 8 := by
  have h : (65280 : Nat) = 255 <<< 8 := by norm_num [Nat.shiftLeft_eq]
  rw [h, and_shift_mask]

theorem and_ff0000 (v : Nat) : v &&& 16711680 = ((v >>> 16) &&& 255) <<< 16 := by
  have h : (16711680 : Nat) = 255 <<< 16 := by norm_num [Nat.shiftLeft_eq]
  rw [h, and_shift_mask]

theorem and_f0 (v : Nat) : v &&& 240 = ((v >>> 4) &&& 15) <<< 4 := by
  have h : (240 : Nat) = 15 <<< 4 := by norm_num [Nat.shiftLeft_eq]
  rw [h, and_shift_mask]

theorem w_int8_eq (v : Nat) : Writer.int8 v = [v % 256] := by
  simp [Writer.int8, and_255]

theorem w_int16_eq (v : Nat) : Writer.int16 v = [v / 256 % 256, v % 256] := by
  unfold Writer.int16
  rw [and_ff00, shiftLeft_shiftRight_same, and_255, Nat.shiftRight_zero,
    show (0x00FF : Nat) = 255 from rfl, and_255, Nat.shiftRight_eq_div_pow]

theorem w_int24_eq (v : Nat) :
    Writer.int24 v = [v / 65536 % 256, v / 256 % 256, v % 256] := by
  unfold Writer.int24
  rw [and_ff0000, shiftLeft_shiftRight_same, and_255,
    show (0x00FF00 : Nat) = 65280 from rfl, and_ff00,
    shiftLeft_shiftRight_same, and_255, Nat.shiftRight_zero,
    show (0x0000FF : Nat) = 255 from rfl, and_255,
    Nat.shiftRight_eq_div_pow, Nat.shiftRight_eq_div_pow]

theorem or_disjoint (k a b : Nat) (hb : b < 2 ^ k) :
    (a <<< k) ||| b = a * 2 ^ k + b :=
  calc (a <<< k) ||| b = 2 ^ k * a ||| b := by rw [Nat.shiftLeft_eq, Nat.mul_comm]
    _ = 2 ^ k * a + b := (Nat.mul_add_lt_is_or hb a).symm
    _ = a * 2 ^ k + b := by rw [Nat.mul_comm]

theorem pow8_eq : (2 : Nat) ^ 8 = 256 := by norm_num

theorem pow16_eq : (2 : Nat) ^ 16 = 65536 := by norm_num

theorem pow20_eq : (2 : Nat) ^ 20 = 1048576 := by norm_num

theorem pow24_eq : (2 : Nat) ^ 24 = 16777216 := by norm_num

theorem recompose16 (v : Nat) (hv : v < 65536) :
    ((v / 256 % 256) <<< 8) ||| (v % 256) = v := by
  have hb : v % 256 < 2 ^ 8 := by
    rw [pow8_eq]; exact Nat.mod_lt v (by norm_num)
  rw [or_disjoint 8 _ _ hb, pow8_eq]
  omega

theorem recompose24 (v : Nat) (hv : v < 16777216) :
    (((v / 65536 % 256) <<< 16) ||| ((v / 256 % 256) <<< 8)) ||| (v % 256) = v := by
  have h1 : (v / 256 % 256) <<< 8 = (v / 256 % 256) * 256 := by
    rw [Nat.shiftLeft_eq, pow8_eq]
  have hb16 : (v / 256 % 256) * 256 < 2 ^ 16 := by
    rw [pow16_eq]
    have h := Nat.mod_lt (v / 256) (y := 256) (by norm_num)
    omega
  have h2 : ((v / 65536 % 256) <<< 16) ||| ((v / 256 % 256) <<< 8) =
      (v / 65536 % 256) * 65536 + (v / 256 % 256) * 256 := by
    rw [h1, or_disjoint 16 _ _ hb16, pow16_eq]
  rw [h2]
  have h3 : (v / 65536 % 256) * 65536 + (v / 256 % 256) * 256 =
      ((v / 65536 % 256) * 256 + v / 256 % 256) <<< 8 := by
    rw [Nat.shiftLeft_eq, pow8_eq]
    ring
  have hb8 : v % 256 < 2 ^ 8 := by
    rw [pow8_eq]; exact Nat.mod_lt v (by norm_num)
  rw [h3, or_disjoint 8 _ _ hb8, pow8_eq]
  omega

theorem rt_int16 (v : Nat) (hv : v < 65536) (rest : List Nat) :
    Reader.int16 (Writer.int16 v ++ rest) = (Except.ok v, rest) := by
  rw [w_int16_eq]
  simp only [List.cons_append, List.nil_append, int16_cons]
  rw [recompose16 v hv]

theorem rt_int24 (v : Nat) (hv : v < 16777216) (rest : List Nat) :
    Reader.int24 (Writer.int24 v ++ rest) = (Except.ok v, rest) := by
  rw [w_int24_eq]
  simp only [List.cons_append, List.nil_append, int24_cons]
  rw [recompose24 v hv]

theorem rt_list_start (l : Nat) (hl : l ≤ 65535) (rest : List Nat) :
    Reader.list_start (Writer.list_start l ++ rest) = (Except.ok l, rest) := by
  unfold Writer.list_start
  by_cases h0 : l = 0
  · simp [h0, Reader.list_start]
  · by_cases h255 : l ≤ 255
    · simp only [h0, if_false, h255, if_true, List.cons_append, List.nil_append]
      simp [Reader.list_start, h0]
    · simp only [h0, if_false, h255, List.cons_append]
      simp [Reader.list_start]
      exact rt_int16 l (by omega) rest

/-! Single-step reductions of `Reader.string` at each leading token. -/

theorem rstring_step_zero (tt : TokTable) (f : Nat) (rest : List Nat) :
    Reader.string tt (f + 1) (0 :: rest) = (Except.ok [], rest) := by
  simp [Reader.string]

theorem rstring_step_tok (tt : TokTable) (f : Nat) (c : Nat) (h3 : 2 < c)
    (hF5 : c < 245) (hEC : c ≠ 236) (rest : List Nat) :
    Reader.string tt (f + 1) (c :: rest) =
      (Except.ok (tt.tok2str (c : Int)), rest) := by
  have h0 : ¬ (c = 0) := by omega
  simp [Reader.string, h0, h3, hF5, hEC]

theorem rstring_step_ec (tt : TokTable) (f : Nat) (b : Nat) (rest : List Nat) :
    Reader.string tt (f + 1) (236 :: b :: rest) =
      (Except.ok (tt.tok2str ((0xED : Int) + b)), rest) := by
  simp [Reader.string]

theorem rstring_step_fa (tt : TokTable) (f : Nat) (rest : List Nat) :
    Reader.string tt (f + 1) (250 :: rest) =
      rbind (Reader.string tt f rest) fun u buf2 =>
      rbind (Reader.string tt f buf2) fun v buf3 =>
      (Except.ok (u ++ 64 :: v), buf3) := by
  simp [Reader.string]

theorem rt_bytes (tt : TokTable) (d : List Nat) (hd : d.length < 16777216)
    (f : Nat) (rest : List Nat) :
    Reader.string tt (f + 1) (Writer.bytes d ++ rest) = (Except.ok d, rest) := by
  unfold Writer.bytes
  by_cases h255 : d.length > 255
  · have e1 : Reader.int24 (Writer.int24 d.length ++ (d ++ rest)) =
        (Except.ok d.length, d ++ rest) := rt_int24 _ hd _
    simp only [h255, if_true, List.cons_append, List.append_assoc]
    simp [Reader.string, e1, consume_append]
  · have hl : d.length &&& 255 = d.length := by rw [and_255]; omega
    simp only [h255, if_false, Writer.int8, hl, List.cons_append,
      List.append_assoc, List.singleton_append]
    simp [Reader.string, consume_append]

theorem specTok_inv :
    ∀ s t, specTok.str2tok s = some t → specTok.tok2str t = s := by
  intro s t h
  simp only [specTok] at h ⊢
  split_ifs at h with h1 h2 h3 h4
  · cases h; simp [h1]
  · cases h; simp [h2]
  · cases h; simp [h3]
  · cases h; simp [h4]

theorem token_eq_small (t : Int) (h0 : 0 ≤ t) (h5 : t < 0xF5) :
    Writer.token t = some [t.toNat] := by
  unfold Writer.token
  rw [if_pos h5, if_pos h0]

theorem wstring_some (tt : TokTable) (s : List Nat) (t : Int)
    (htok : tt.str2tok s = some t) :
    Writer.string tt s = (if t > 0xEB then do
        let a ← Writer.token 0xEC
        let b ← Writer.token (t - 0xED)
        pure (a ++ b)
      else Writer.token t) := by
  unfold Writer.string
  rw [htok]

theorem rt_string_aux (tt : TokTable)
    (hinv : ∀ s t, tt.str2tok s = some t → tt.tok2str t = s) :
    ∀ (n : Nat) (s : List Nat), s.length < n → StrOK tt s = true →
    ∃ out, Writer.string tt s = some out ∧
      (∃ c cs, out = c :: cs ∧ c ≠ 0 ∧ c ≠ 1 ∧ c ≠ 2 ∧ c ≠ 248 ∧ c ≠ 249) ∧
      ∀ fuel rest, s.length + 1 ≤ fuel →
        Reader.string tt fuel (out ++ rest) = (Except.ok s, rest) := by
  intro n
  induction n with
  | zero => intro s hs; omega
  | succ n ih =>
    intro s hs hok
    rcases htok : tt.str2tok s with _ | t
    · -- the string is not in the dictionary
      unfold StrOK at hok
      rw [htok] at hok
      have hok' : (if _ : 64 ∈ s then
          ((partAt s).1.isEmpty || StrOK tt (partAt s).1) && StrOK tt (partAt s).2
        else decide (s.length < 16777216)) = true := hok
      clear hok
      by_cases hat : 64 ∈ s
      · -- JID path
        rw [dif_pos hat, Bool.and_eq_true] at hok'
        have hokv : StrOK tt (partAt s).2 = true := hok'.2
        have hlenu := partAt_fst_lt s hat
        have hlenv := partAt_snd_lt s hat
        have hlens : s.length = (partAt s).1.length + 1 + (partAt s).2.length := by
          have := congrArg List.length (partAt_eq s hat)
          simp at this
          omega
        obtain ⟨outV, hWv, hHv, hRv⟩ := ih (partAt s).2 (by omega) hokv
        by_cases hu : (partAt s).1 = []
        · refine ⟨250 :: 0 :: outV, ?_, ⟨250, _, rfl, by norm_num, by norm_num,
            by norm_num, by norm_num, by norm_num⟩, ?_⟩
          · unfold Writer.string
            rw [htok, dif_pos hat]
            unfold Writer.jid
            rw [hu]
            simp [hWv]
          · intro fuel rest hfuel
            cases fuel with
            | zero => omega
            | succ f =>
              rw [List.cons_append, List.cons_append, rstring_step_fa]
              cases f with
              | zero => omega
              | succ f2 =>
                rw [rstring_step_zero, rbind_ok,
                  hRv (f2 + 1) rest (by omega), rbind_ok]
                have hse := partAt_eq s hat
                rw [hu, List.nil_append] at hse
                rw [← hse, List.nil_append]
        · -- user part present
          have hoku : StrOK tt (partAt s).1 = true := by
            have h1 := hok'.1
            rw [Bool.or_eq_true] at h1
            rcases h1 with he | hs1
            · exact absurd (by simpa using he) hu
            · exact hs1
          obtain ⟨outU, hWu, hHu, hRu⟩ := ih (partAt s).1 (by omega) hoku
          refine ⟨250 :: (outU ++ outV), ?_, ⟨250, _, rfl, by norm_num,
            by norm_num, by norm_num, by norm_num, by norm_num⟩, ?_⟩
          · unfold Writer.string
            rw [htok, dif_pos hat]
            unfold Writer.jid
            rw [if_pos hu]
            simp [hWu, hWv]
          · intro fuel rest hfuel
            cases fuel with
            | zero => omega
            | succ f =>
              rw [List.cons_append, List.append_assoc, rstring_step_fa,
                hRu f (outV ++ rest) (by omega), rbind_ok,
                hRv f rest (by omega), rbind_ok, ← partAt_eq s hat]
      · -- raw bytes path
        rw [dif_neg hat] at hok'
        have hlen : s.length < 16777216 := of_decide_eq_true hok'
        refine ⟨Writer.bytes s, ?_, ?_, ?_⟩
        · unfold Writer.string
          rw [htok, dif_neg hat]
        · unfold Writer.bytes
          by_cases h255 : s.length > 255
          · exact ⟨253, _, by rw [if_pos h255], by norm_num, by norm_num,
              by norm_num, by norm_num, by norm_num⟩
          · exact ⟨252, _, by rw [if_neg h255], by norm_num, by norm_num,
              by norm_num, by norm_num, by norm_num⟩
        · intro fuel rest hfuel
          cases fuel with
          | zero => omega
          | succ f => exact rt_bytes tt s hlen f rest
    · -- the string is in the dictionary
      unfold StrOK at hok
      rw [htok] at hok
      have hok' : decide ((3 ≤ t ∧ t ≤ 0xEB) ∨ (0xED ≤ t ∧ t ≤ 0x1E1)) = true := hok
      rcases of_decide_eq_true hok' with ⟨h3, hEB⟩ | ⟨hED, h1E1⟩
      · refine ⟨[t.toNat], ?_, ⟨t.toNat, [], rfl, by omega, by omega, by omega,
          by omega, by omega⟩, ?_⟩
        · rw [wstring_some tt s t htok, if_neg (by omega : ¬ (t > 0xEB)),
            token_eq_small t (by omega) (by omega)]
        · intro fuel rest hfuel
          cases fuel with
          | zero => omega
          | succ f =>
            rw [List.singleton_append,
              rstring_step_tok tt f t.toNat (by omega) (by omega) (by omega),
              show ((t.toNat : Nat) : Int) = t from Int.toNat_of_nonneg (by omega),
              hinv s t htok]
      · refine ⟨[236, (t - 0xED).toNat], ?_, ⟨236, _, rfl, by norm_num,
          by norm_num, by norm_num, by norm_num, by norm_num⟩, ?_⟩
        · rw [wstring_some tt s t htok, if_pos (by omega : t > 0xEB),
            token_eq_small 0xEC (by norm_num) (by norm_num),
            token_eq_small (t - 0xED) (by omega) (by omega)]
          rfl
        · intro fuel rest hfuel
          cases fuel with
          | zero => omega
          | succ f =>
            rw [show ([236, (t - 0xED).toNat] ++ rest) =
                236 :: (t - 0xED).toNat :: rest from rfl,
              rstring_step_ec,
              show (((t - 0xED).toNat : Nat) : Int) = t - 0xED from
                Int.toNat_of_nonneg (by omega),
              show (0xED : Int) + (t - 0xED) = t from by omega,
              hinv s t htok]

theorem rt_string_ok (tt : TokTable)
    (hinv : ∀ s t, tt.str2tok s = some t → tt.tok2str t = s)
    (s : List Nat) (hok : StrOK tt s = true) :
    ∃ out, Writer.string tt s = some out ∧
      (∃ c cs, out = c :: cs ∧ c ≠ 0 ∧ c ≠ 1 ∧ c ≠ 2 ∧ c ≠ 248 ∧ c ≠ 249) ∧
      ∀ fuel rest, s.length + 1 ≤ fuel →
        Reader.string tt fuel (out ++ rest) = (Except.ok s, rest) :=
  rt_string_aux tt hinv (s.length + 1) s (by omega) hok

/-! Attribute and node-list round trips, and the node round trip itself. -/

theorem rattrs_zero (tt : TokTable) (fuel : Nat) (buf : List Nat) :
    Reader.attributes tt fuel 0 buf = (Except.ok [], buf) := rfl

theorem rattrs_step (tt : TokTable) (fuel m : Nat) (buf : List Nat) :
    Reader.attributes tt fuel (m + 1) buf =
      (rbind (Reader.string tt fuel buf) fun nm buf1 =>
       rbind (Reader.string tt fuel buf1) fun v buf2 =>
       rbind (Reader.attributes tt fuel m buf2) fun r buf3 =>
       (Except.ok ((nm, v) :: r), buf3)) := rfl

theorem readLoop_zero (rd : List Nat → RRes NodeT) (buf : List Nat) :
    readLoop rd 0 buf = (Except.ok [], buf) := rfl

theorem readLoop_succ (rd : List Nat → RRes NodeT) (k : Nat) (buf : List Nat) :
    readLoop rd (k + 1) buf =
      (rbind (rd buf) fun c buf1 =>
       rbind (readLoop rd k buf1) fun r buf2 =>
       (Except.ok (c :: r), buf2)) := rfl

theorem rt_attributes (tt : TokTable)
    (hinv : ∀ s t, tt.str2tok s = some t → tt.tok2str t = s) :
    ∀ (attrs : List (List Nat × List Nat)),
    (∀ p ∈ attrs, StrOK tt p.1 = true ∧ StrOK tt p.2 = true) →
    ∃ out, Writer.attributes tt attrs = some out ∧
      ∀ fuel rest,
        (∀ p ∈ attrs, p.1.length + 1 ≤ fuel ∧ p.2.length + 1 ≤ fuel) →
        Reader.attributes tt fuel attrs.length (out ++ rest) =
          (Except.ok attrs, rest) := by
  intro attrs
  induction attrs with
  | nil =>
    intro _
    exact ⟨[], rfl, fun fuel rest _ => rfl⟩
  | cons p r ihr =>
    intro hall
    obtain ⟨k, v⟩ := p
    obtain ⟨outK, hWk, _, hRk⟩ := rt_string_ok tt hinv k (hall (k, v) (by simp)).1
    obtain ⟨outV, hWv, _, hRv⟩ := rt_string_ok tt hinv v (hall (k, v) (by simp)).2
    obtain ⟨outR, hWr, hRr⟩ := ihr (fun q hq => hall q (by simp [hq]))
    refine ⟨outK ++ outV ++ outR, ?_, ?_⟩
    · simp [Writer.attributes, hWk, hWv, hWr]
    · intro fuel rest hf
      have hk := (hf (k, v) (by simp)).1
      have hv := (hf (k, v) (by simp)).2
      rw [List.length_cons, List.append_assoc, List.append_assoc, rattrs_step,
        hRk fuel _ hk, rbind_ok, hRv fuel _ hv, rbind_ok,
        hRr fuel rest (fun q hq => hf q (by simp [hq])), rbind_ok]

theorem needN_mk (nm : List Nat) (attrs : List (List Nat × List Nat))
    (d : List Nat) (cs : List NodeT) :
    needN (NodeT.mk nm attrs d cs) =
      1 + nm.length + (attrs.map fun p => p.1.length + p.2.length).sum
        + d.length + needNList cs := rfl

theorem needNList_cons (c : NodeT) (r : List NodeT) :
    needNList (c :: r) = needN c + needNList r := rfl

theorem needN_pos (nd : NodeT) : 1 ≤ needN nd := by
  obtain ⟨nm, attrs, d, cs⟩ := nd
  rw [needN_mk]
  omega

theorem needN_mem (c : NodeT) : ∀ (cs : List NodeT), c ∈ cs →
    needN c ≤ needNList cs := by
  intro cs
  induction cs with
  | nil => intro h; cases h
  | cons x r ih =>
    intro h
    rw [needNList_cons]
    rcases List.mem_cons.mp h with h1 | h2
    · subst h1; omega
    · have := ih h2; omega

theorem nodeok_mk (tt : TokTable) (nm : List Nat)
    (attrs : List (List Nat × List Nat)) (d : List Nat) (cs : List NodeT) :
    NodeOK tt (NodeT.mk nm attrs d cs) =
      (StrOK tt nm &&
       attrs.all (fun p => StrOK tt p.1 && StrOK tt p.2) &&
       (d.isEmpty || cs.isEmpty) &&
       decide (d.length < 16777216) &&
       decide (cs.length ≤ 0xFFFF) &&
       decide (attrs.length ≤ 0x7FFE) &&
       NodeOKList tt cs) := by
  unfold NodeOK
  rfl

theorem nodeoklist_nil (tt : TokTable) : NodeOKList tt [] = true := by
  conv_lhs => unfold NodeOKList

theorem nodeoklist_cons (tt : TokTable) (x : NodeT) (r : List NodeT) :
    NodeOKList tt (x :: r) = (NodeOK tt x && NodeOKList tt r) := by
  conv_lhs => unfold NodeOKList

theorem nodeoklist_mem (tt : TokTable) (c : NodeT) :
    ∀ (cs : List NodeT), NodeOKList tt cs = true → c ∈ cs →
    NodeOK tt c = true := by
  intro cs
  induction cs with
  | nil => intro _ h; cases h
  | cons x r ih =>
    intro hall h
    rw [nodeoklist_cons, Bool.and_eq_true] at hall
    rcases List.mem_cons.mp h with h1 | h2
    · subst h1; exact hall.1
    · exact ih hall.2 h2

theorem rt_nodeList (tt : TokTable) :
    ∀ (cs : List NodeT),
    (∀ c ∈ cs, ∃ out, Writer._node tt c = some out ∧
       ∀ fuel rest, needN c ≤ fuel →
         Reader._read tt fuel (out ++ rest) = (Except.ok c, rest)) →
    ∃ out, Writer._nodeList tt cs = some out ∧
      ∀ fuel rest, (∀ c ∈ cs, needN c ≤ fuel) →
        readLoop (Reader._read tt fuel) cs.length (out ++ rest) =
          (Except.ok cs, rest) := by
  intro cs
  induction cs with
  | nil =>
    intro _
    refine ⟨[], by unfold Writer._nodeList; rfl, ?_⟩
    intro fuel rest _
    rfl
  | cons c r ihr =>
    intro hall
    obtain ⟨outC, hWc, hRc⟩ := hall c (by simp)
    obtain ⟨outR, hWr, hRr⟩ := ihr (fun x hx => hall x (by simp [hx]))
    refine ⟨outC ++ outR, ?_, ?_⟩
    · simp only [Writer._nodeList, hWc, hWr, Option.bind_eq_bind]
      rfl
    · intro fuel rest hf
      rw [List.length_cons, List.append_assoc, readLoop_succ,
        hRc fuel _ (hf c (by simp)), rbind_ok,
        hRr fuel rest (fun x hx => hf x (by simp [hx])), rbind_ok]

theorem needNList_nil : needNList [] = 0 := rfl

theorem wnode_mk (tt : TokTable) (nm : List Nat)
    (attrs : List (List Nat × List Nat)) (d : List Nat) (cs : List NodeT) :
    Writer._node tt (NodeT.mk nm attrs d cs) = (do
      let sName ← Writer.string tt nm
      let sAttrs ← Writer.attributes tt attrs
      let sChildren ←
        if cs.isEmpty then pure ([] : List Nat)
        else do
          let csB ← Writer._nodeList tt cs
          pure (Writer.list_start cs.length ++ csB)
      pure (Writer.list_start (1 + (if attrs ≠ [] then 2 * attrs.length else 0)
          + (if cs.isEmpty then 0 else 1) + (if d ≠ [] then 1 else 0))
        ++ sName ++ sAttrs ++ (if d ≠ [] then Writer.bytes d else []) ++ sChildren)) := by
  unfold Writer._node
  rfl

theorem rt_node_aux (tt : TokTable)
    (hinv : ∀ s t, tt.str2tok s = some t → tt.tok2str t = s) :
    ∀ (m : Nat) (nd : NodeT), needN nd ≤ m → NodeOK tt nd = true →
    ∃ out, Writer._node tt nd = some out ∧
      ∀ fuel rest, needN nd ≤ fuel →
        Reader._read tt fuel (out ++ rest) = (Except.ok nd, rest) := by
  intro m
  induction m with
  | zero =>
    intro nd h _
    have := needN_pos nd
    omega
  | succ m ihm =>
    intro nd hm hok
    obtain ⟨nm, attrs, d, cs⟩ := nd
    rw [nodeok_mk] at hok
    simp only [Bool.and_eq_true] at hok
    obtain ⟨⟨⟨⟨⟨⟨hnm, hattrs⟩, hdc⟩, hd24⟩, hcs16⟩, ha15⟩, hcsok⟩ := hok
    have hattrs' : ∀ p ∈ attrs, StrOK tt p.1 = true ∧ StrOK tt p.2 = true := by
      intro p hp
      have h1 := List.all_eq_true.mp hattrs p hp
      rw [Bool.and_eq_true] at h1
      exact h1
    have hd24' : d.length < 16777216 := of_decide_eq_true hd24
    have hcs16' : cs.length ≤ 65535 := of_decide_eq_true hcs16
    have ha15' : attrs.length ≤ 32766 := of_decide_eq_true ha15
    have hifA : (if attrs ≠ [] then 2 * attrs.length else 0) = 2 * attrs.length := by
      split
      · rfl
      · simp_all
    obtain ⟨outName, hWnm, hHnm, hRnm⟩ := rt_string_ok tt hinv nm hnm
    obtain ⟨outAttrs, hWattrs, hRattrs⟩ := rt_attributes tt hinv attrs hattrs'
    obtain ⟨chead, ctail, hceq, hc0, hc1, hc2, hc248, hc249⟩ := hHnm
    subst hceq
    have hattr_fuel : ∀ fuel,
        (attrs.map fun p => p.1.length + p.2.length).sum + 1 ≤ fuel →
        ∀ p ∈ attrs, p.1.length + 1 ≤ fuel ∧ p.2.length + 1 ≤ fuel := by
      intro fuel hf p hp
      have hs := List.single_le_sum
        (l := attrs.map fun p => p.1.length + p.2.length)
        (fun a _ => Nat.zero_le a) _ (List.mem_map_of_mem _ hp)
      omega
    by_cases hcse : cs = []
    · subst hcse
      by_cases hde : d = []
      · -- neither data nor children
        subst hde
        have hW : Writer._node tt (NodeT.mk nm attrs [] []) =
            some (Writer.list_start (1 + 2 * attrs.length + 0 + 0)
              ++ (chead :: ctail) ++ outAttrs ++ [] ++ []) := by
          rw [wnode_mk, hWnm, hWattrs, hifA]
          rfl
        refine ⟨_, hW, ?_⟩
        intro fuel rest hfuel
        rw [needN_mk] at hfuel
        simp only [List.length_nil, needNList_nil] at hfuel
        cases fuel with
        | zero => omega
        | succ f =>
          simp only [List.append_assoc, List.append_nil, List.cons_append]
          have e1 := rt_list_start (1 + 2 * attrs.length + 0 + 0) (by omega)
            (chead :: (ctail ++ (outAttrs ++ rest)))
          have e2 := hRnm (f + 1) (outAttrs ++ rest) (by omega)
          simp only [List.cons_append] at e2
          have e3 := hRattrs (f + 1) rest (hattr_fuel (f + 1) (by omega))
          have hcount : (1 + 2 * attrs.length + 0 + 0 - 1) / 2 = attrs.length := by
            omega
          simp only [Reader._read, e1, rbind_ok, peek_int8_cons, if_neg hc1,
            if_neg hc2, e2, hcount, e3,
            if_neg (show ¬((1 + 2 * attrs.length + 0 + 0) % 2 = 0) by omega)]
      · -- data, no children
        have hW : Writer._node tt (NodeT.mk nm attrs d []) =
            some (Writer.list_start (1 + 2 * attrs.length + 0 + 1)
              ++ (chead :: ctail) ++ outAttrs ++ Writer.bytes d ++ []) := by
          rw [wnode_mk, hWnm, hWattrs, hifA]
          simp only [if_pos hde]
          rfl
        refine ⟨_, hW, ?_⟩
        intro fuel rest hfuel
        rw [needN_mk] at hfuel
        simp only [needNList_nil] at hfuel
        cases fuel with
        | zero => omega
        | succ f =>
          obtain ⟨hb, tl, hbe, hb248, hb249⟩ :
              ∃ hb tl, Writer.bytes d = hb :: tl ∧ hb ≠ 248 ∧ hb ≠ 249 := by
            unfold Writer.bytes
            by_cases h : d.length > 255
            · exact ⟨253, _, by rw [if_pos h], by norm_num, by norm_num⟩
            · exact ⟨252, _, by rw [if_neg h], by norm_num, by norm_num⟩
          simp only [List.append_assoc, List.append_nil, List.cons_append]
          have e1 := rt_list_start (1 + 2 * attrs.length + 0 + 1) (by omega)
            (chead :: (ctail ++ (outAttrs ++ (Writer.bytes d ++ rest))))
          have e2 := hRnm (f + 1) (outAttrs ++ (Writer.bytes d ++ rest)) (by omega)
          simp only [List.cons_append] at e2
          have e3 := hRattrs (f + 1) (Writer.bytes d ++ rest)
            (hattr_fuel (f + 1) (by omega))
          have hcount : (1 + 2 * attrs.length + 0 + 1 - 1) / 2 = attrs.length := by
            omega
          have epk : Reader.peek_int8 (Writer.bytes d ++ rest) =
              (Except.ok hb, Writer.bytes d ++ rest) := by
            conv_lhs => rw [hbe, List.cons_append, peek_int8_cons]
            rw [hbe, List.cons_append]
          have ebytes := rt_bytes tt d hd24' f rest
          simp only [Reader._read, e1, rbind_ok, peek_int8_cons, if_neg hc1,
            if_neg hc2, e2, hcount, e3,
            if_pos (show (1 + 2 * attrs.length + 0 + 1) % 2 = 0 by omega),
            epk, if_neg (show ¬(hb = 248 ∨ hb = 249) by
              rintro (h | h)
              · exact hb248 h
              · exact hb249 h),
            ebytes]
    · -- children, no data
      have hde : d = [] := by
        rw [Bool.or_eq_true] at hdc
        rcases hdc with h | h
        · simpa using h
        · exact absurd (by simpa using h) hcse
      subst hde
      have hcsne : cs.isEmpty = false := by
        cases cs with
        | nil => exact absurd rfl hcse
        | cons a b => rfl
      have hall : ∀ c ∈ cs, ∃ out, Writer._node tt c = some out ∧
          ∀ fuel rest, needN c ≤ fuel →
            Reader._read tt fuel (out ++ rest) = (Except.ok c, rest) := by
        intro c hc
        refine ihm c ?_ (nodeoklist_mem tt c cs hcsok hc)
        have h1 := needN_mem c cs hc
        rw [needN_mk] at hm
        omega
      obtain ⟨outCs, hWcs, hRcs⟩ := rt_nodeList tt cs hall
      have hW : Writer._node tt (NodeT.mk nm attrs [] cs) =
          some (Writer.list_start (1 + 2 * attrs.length + 1 + 0)
            ++ (chead :: ctail) ++ outAttrs ++ []
            ++ (Writer.list_start cs.length ++ outCs)) := by
        rw [wnode_mk, hWnm, hWattrs, hifA]
        simp only [hcsne, Bool.false_eq_true, if_false, hWcs]
        rfl
      refine ⟨_, hW, ?_⟩
      intro fuel rest hfuel
      rw [needN_mk] at hfuel
      simp only [List.length_nil] at hfuel
      cases fuel with
      | zero =>
        have := needN_pos (NodeT.mk nm attrs [] cs)
        omega
      | succ f =>
        obtain ⟨lb, lt, hle, hl89⟩ :
            ∃ lb lt, Writer.list_start cs.length = lb :: lt ∧
              (lb = 248 ∨ lb = 249) := by
          unfold Writer.list_start
          rw [if_neg (show ¬(cs.length = 0) by
            cases cs with
            | nil => exact absurd rfl hcse
            | cons a b => simp)]
          by_cases h : cs.length ≤ 255
          · exact ⟨248, _, by rw [if_pos h], Or.inl rfl⟩
          · exact ⟨249, _, by rw [if_neg h], Or.inr rfl⟩
        simp only [List.append_assoc, List.append_nil, List.cons_append]
        have e1 := rt_list_start (1 + 2 * attrs.length + 1 + 0) (by omega)
          (chead :: (ctail ++ (outAttrs ++ (Writer.list_start cs.length ++ (outCs ++ rest)))))
        have e2 := hRnm (f + 1)
          (outAttrs ++ (Writer.list_start cs.length ++ (outCs ++ rest))) (by omega)
        simp only [List.cons_append] at e2
        have e3 := hRattrs (f + 1) (Writer.list_start cs.length ++ (outCs ++ rest))
          (hattr_fuel (f + 1) (by omega))
        have hcount : (1 + 2 * attrs.length + 1 + 0 - 1) / 2 = attrs.length := by
          omega
        have epk : Reader.peek_int8
            (Writer.list_start cs.length ++ (outCs ++ rest)) =
            (Except.ok lb, Writer.list_start cs.length ++ (outCs ++ rest)) := by
          conv_lhs => rw [hle, List.cons_append, peek_int8_cons]
          rw [hle, List.cons_append]
        have e4 := rt_list_start cs.length hcs16' (outCs ++ rest)
        have e5 := hRcs f rest (fun c hc => by
          have := needN_mem c cs hc
          omega)
        simp only [Reader._read, e1, rbind_ok, peek_int8_cons, if_neg hc1,
          if_neg hc2, e2, hcount, e3,
          if_pos (show (1 + 2 * attrs.length + 1 + 0) % 2 = 0 by omega),
          epk, if_pos hl89, e4, e5]

theorem rt_node_ok (tt : TokTable)
    (hinv : ∀ s t, tt.str2tok s = some t → tt.tok2str t = s)
    (nd : NodeT) (hok : NodeOK tt nd = true) :
    ∃ out, Writer._node tt nd = some out ∧
      ∀ fuel rest, needN nd ≤ fuel →
        Reader._read tt fuel (out ++ rest) = (Except.ok nd, rest) :=
  rt_node_aux tt hinv (needN nd) nd (by omega) hok

/-! Frame-header arithmetic (used by the C5 and C6 theorems). -/

theorem build24 (a b c : Nat) (hb : b < 256) (hc : c < 256) :
    ((a <<< 16) ||| (b <<< 8)) ||| c = a * 65536 + b * 256 + c := by
  have h1 : b <<< 8 = b * 256 := by rw [Nat.shiftLeft_eq, pow8_eq]
  have h2 : (a <<< 16) ||| (b <<< 8) = a * 65536 + b * 256 := by
    rw [h1, or_disjoint 16 _ _ (by rw [pow16_eq]; omega), pow16_eq]
  have h3 : a * 65536 + b * 256 = (a * 256 + b) <<< 8 := by
    rw [Nat.shiftLeft_eq, pow8_eq]; ring
  calc ((a <<< 16) ||| (b <<< 8)) ||| c
      = ((a * 256 + b) <<< 8) ||| c := by rw [h2, h3]
    _ = (a * 256 + b) * 2 ^ 8 + c := or_disjoint 8 _ _ (by rw [pow8_eq]; omega)
    _ = a * 65536 + b * 256 + c := by rw [pow8_eq]; ring

theorem peek_int24_value (H : Nat) (payload : List Nat) (hH : H < 16777216) :
    Reader.peek_int24 (Writer.int24 H ++ payload) =
      (Except.ok H, Writer.int24 H ++ payload) := by
  rw [w_int24_eq]
  simp only [List.cons_append, List.nil_append, peek_int24_cons]
  rw [recompose24 H hH]

theorem int24_drop3 (H : Nat) (payload : List Nat) :
    (Writer.int24 H ++ payload).drop 3 = payload := by
  rw [w_int24_eq]
  simp

theorem header_plain_fields (L : Nat) (hL : L < 1048576) :
    ((L >>> 16) &&& 0xF0) >>> 4 = 0 ∧
    ((L &&& 0xFFFF) ||| (((L >>> 16) &&& 0x0F) <<< 16)) = L := by
  have hdiv : L / 65536 < 16 := by omega
  constructor
  · rw [and_f0, show (L >>> 16) >>> 4 = 0 from by
      rw [Nat.shiftRight_eq_div_pow, Nat.shiftRight_eq_div_pow, pow16_eq]
      norm_num
      omega]
    norm_num
  · rw [and_65535, and_15, Nat.shiftRight_eq_div_pow, pow16_eq,
      Nat.lor_comm, or_disjoint 16 _ _ (by rw [pow16_eq]; omega), pow16_eq]
    omega

theorem header_enc_fields (L : Nat) (hL : L < 1048576) :
    (((((8 <<< 4) ||| ((L &&& 16711680) >>> 16)) <<< 16) |||
        (((L &&& 65280) >>> 8) <<< 8)) ||| (L &&& 255)) < 16777216 ∧
    ((((((8 <<< 4) ||| ((L &&& 16711680) >>> 16)) <<< 16) |||
        (((L &&& 65280) >>> 8) <<< 8)) ||| (L &&& 255)) >>> 16 &&& 0xF0) >>> 4 = 8 ∧
    (((((((8 <<< 4) ||| ((L &&& 16711680) >>> 16)) <<< 16) |||
        (((L &&& 65280) >>> 8) <<< 8)) ||| (L &&& 255)) &&& 0xFFFF) |||
      (((((((8 <<< 4) ||| ((L &&& 16711680) >>> 16)) <<< 16) |||
        (((L &&& 65280) >>> 8) <<< 8)) ||| (L &&& 255)) >>> 16 &&& 0x0F) <<< 16)) = L := by
  have hdiv : L / 65536 < 16 := by omega
  have e1 : (L &&& 16711680) >>> 16 = L / 65536 := by
    rw [and_ff0000, shiftLeft_shiftRight_same, and_255,
      Nat.shiftRight_eq_div_pow, pow16_eq]
    omega
  have e2 : (L &&& 65280) >>> 8 = L / 256 % 256 := by
    rw [and_ff00, shiftLeft_shiftRight_same, and_255,
      Nat.shiftRight_eq_div_pow, pow8_eq]
  have e3 : L &&& 255 = L % 256 := and_255 L
  have efirst : (8 <<< 4) ||| (L / 65536) = 128 + L / 65536 := by
    have h := or_disjoint 4 8 (L / 65536)
      (by rw [show (2:Nat) ^ 4 = 16 from by norm_num]; omega)
    rw [show (8 : Nat) <<< 4 = 8 * 2 ^ 4 from Nat.shiftLeft_eq 8 4] at h ⊢
    rw [h]
    norm_num
  have hH : ((((8 <<< 4) ||| ((L &&& 16711680) >>> 16)) <<< 16) |||
      (((L &&& 65280) >>> 8) <<< 8)) ||| (L &&& 255) =
      (128 + L / 65536) * 65536 + (L / 256 % 256) * 256 + L % 256 := by
    rw [e1, e2, e3, efirst,
      build24 _ _ _ (Nat.mod_lt _ (by norm_num)) (Nat.mod_lt _ (by norm_num))]
  rw [hH]
  set H := (128 + L / 65536) * 65536 + (L / 256 % 256) * 256 + L % 256 with hHdef
  have hm1 : L / 256 % 256 < 256 := Nat.mod_lt _ (by norm_num)
  have hm2 : L % 256 < 256 := Nat.mod_lt _ (by norm_num)
  have hHlt : H < 16777216 := by rw [hHdef]; omega
  have hH16 : H >>> 16 = 128 + L / 65536 := by
    rw [Nat.shiftRight_eq_div_pow, pow16_eq, hHdef]
    omega
  refine ⟨hHlt, ?_, ?_⟩
  · rw [hH16, and_f0, shiftLeft_shiftRight_same, and_15,
      Nat.shiftRight_eq_div_pow,
      show (2:Nat) ^ 4 = 16 from by norm_num]
    omega
  · rw [hH16, and_65535, and_15, Nat.lor_comm,
      or_disjoint 16 _ _ (by rw [pow16_eq]; omega), pow16_eq]
    omega

/-- `Writer.node` as an explicit `Option.bind` chain. -/
theorem wnode_frame (tt : TokTable) (wEnc : Option (List Nat → List Nat))
    (n : Option NodeT) (encArg : Option Bool) :
    Writer.node tt wEnc n encArg =
      Option.bind (match n with
        | none => some [0x00]
        | some nd => Writer._node tt nd)
        (fun plain =>
          if encArg.getD wEnc.isSome then
            Option.bind wEnc (fun f =>
              some (Writer.int24 ((((8 <<< 4) |||
                    (((f plain).length &&& 16711680) >>> 16)) <<< 16) |||
                  ((((f plain).length &&& 65280) >>> 8) <<< 8) |||
                  ((f plain).length &&& 255)) ++ f plain, plain))
          else some (Writer.int24 plain.length ++ plain, plain)) := by
  unfold Writer.node
  cases n <;> rfl

/-- `Writer.node` with `encrypt=False`: the plain framing, whatever cipher is
installed. -/
theorem wnode_plain_forced (tt : TokTable) (wEnc : Option (List Nat → List Nat))
    (nd : NodeT) (plain : List Nat) (h : Writer._node tt nd = some plain) :
    Writer.node tt wEnc (some nd) (some false) =
      some (Writer.int24 plain.length ++ plain, plain) := by
  rw [wnode_frame]
  show Option.bind (Writer._node tt nd) _ = _
  rw [h]
  rfl

/-- When the wait loop returns, the callback it found is one of those given
and its latch is set. -/
theorem waitLoop_found (step : CBWorld → CBWorld) (cbs : List CBInfo) :
    ∀ (fuel : Nat) (w w1 : CBWorld) (cb : CBInfo),
      Client.waitLoop step cbs fuel w = some (w1, cb) →
      cb ∈ cbs ∧ (w1.latch cb.id).isSome = true := by
  intro fuel
  induction fuel with
  | zero => intro w w1 cb h; simp [Client.waitLoop] at h
  | succ n ih =>
    intro w w1 cb h
    rw [Client.waitLoop] at h
    cases hf : List.find? (fun cb => (w.latch cb.id).isSome) cbs with
    | some cb0 =>
      rw [hf] at h
      have h2 := Option.some.inj h
      injection h2 with e1 e2
      subst e1
      subst e2
      have hp := List.find?_some hf
      exact ⟨List.mem_of_find?_eq_some hf, by simpa using hp⟩
    | none =>
      rw [hf] at h
      exact ih (step w) w1 cb h

/-! # Claim theorems -/

/-- C1 counterexample: the claim fails as stated.  Under the spec's
dictionary (roughly 500 strings, so ids up to about `0x1F6` exist), take the
well-formed node whose name is the dictionary string with id `0x1E2`.  The
writer encodes it as `F8 01 EC FE 00`; the reader decodes that to a node
named with the string of id `0x1EB` and leaves a byte unconsumed, so
`decode (encode n) ≠ n`. -/
theorem c1_roundtrip_counterexample :
    Writer._node specTok (NodeT.mk s482Bytes [] [] []) =
      some [0xF8, 0x01, 0xEC, 0xFE, 0x00] ∧
    Reader._read specTok 6 [0xF8, 0x01, 0xEC, 0xFE, 0x00] =
      (Except.ok (NodeT.mk s491Bytes [] [] []), [0x00]) ∧
    s491Bytes ≠ s482Bytes := by
  refine ⟨?_, rfl, by decide⟩
  simp [Writer._node, Writer.string, Writer.attributes, Writer.bytes,
    Writer.int8, Writer.list_start, specTok, s482Bytes, accountBytes,
    s240Bytes, s491Bytes, Writer.token]

/-- C1 (amended): for every dictionary whose two directions agree and every
node that is well formed in the strengthened sense (`NodeOK`: data and
children not both present, every string either absent from the dictionary
and shorter than `2^24` or carrying an id in `[0x03,0xEB] ∪ [0xED,0x1E1]`,
and attribute/child/data counts within the wire format's fields), decoding
the writer's encoding returns exactly the node and leaves the rest of the
buffer untouched. -/
theorem c1_roundtrip_amended (tt : TokTable)
    (hinv : ∀ s t, tt.str2tok s = some t → tt.tok2str t = s)
    (nd : NodeT) (hok : NodeOK tt nd = true) :
    ∃ out, Writer._node tt nd = some out ∧
      ∀ fuel rest, needN nd ≤ fuel →
        Reader._read tt fuel (out ++ rest) = (Except.ok nd, rest) :=
  rt_node_ok tt hinv nd hok

set_option maxRecDepth 4000 in
/-- C1 witness: the amended round trip at a concrete node with an
attribute, data and a child, over the modelled dictionary. -/
theorem c1_roundtrip_amended_witness :
    ∃ out, Writer._node specTok (NodeT.mk [0x6E] [(accountBytes, [0x76])] []
        [NodeT.mk [0x63] [] [0x01, 0x02] []]) = some out ∧
      Reader._read specTok 50 (out ++ [0x07]) =
        (Except.ok (NodeT.mk [0x6E] [(accountBytes, [0x76])] []
          [NodeT.mk [0x63] [] [0x01, 0x02] []]), [0x07]) := by
  have h1 : StrOK specTok [0x6E] = true := by
    simp [StrOK, specTok, accountBytes, s240Bytes, s482Bytes, s491Bytes]
  have h2 : StrOK specTok accountBytes = true := by
    simp [StrOK, specTok, accountBytes, s240Bytes, s482Bytes, s491Bytes]
  have h3 : StrOK specTok [0x76] = true := by
    simp [StrOK, specTok, accountBytes, s240Bytes, s482Bytes, s491Bytes]
  have h4 : StrOK specTok [0x63] = true := by
    simp [StrOK, specTok, accountBytes, s240Bytes, s482Bytes, s491Bytes]
  have hok : NodeOK specTok (NodeT.mk [0x6E] [(accountBytes, [0x76])] []
      [NodeT.mk [0x63] [] [0x01, 0x02] []]) = true := by
    simp [nodeok_mk, nodeoklist_cons, nodeoklist_nil, h1, h2, h3, h4]
  obtain ⟨out, hw, hr⟩ := c1_roundtrip_amended specTok specTok_inv _ hok
  exact ⟨out, hw, hr 50 [0x07] (by decide)⟩

/-- C2: the claim is right and the code is wrong.  `Reader.read` compares
the 20-bit length against the whole buffer, header included
(`length > len(self.buf)` before the header is consumed), instead of the
payload bytes buffered after the header.  Feeding the 6-byte chunk
`00 00 05 F8 01 FC` of the valid 8-byte frame `00 00 05 F8 01 FC 01 61`
buffers only 3 of the 5 declared payload bytes, yet the reader proceeds,
consumes the header and raises `StreamError` instead of signalling
Incomplete with nothing consumed; the full frame parses fine. -/
theorem c2_incomplete_check_off_by_three :
    Reader.read emptyTok id [0x00, 0x00, 0x05, 0xF8, 0x01, 0xFC] =
      (Except.error RErr.streamError, []) ∧
    Reader.read emptyTok id [0x00, 0x00, 0x05, 0xF8, 0x01, 0xFC, 0x01, 0x61] =
      (Except.ok (NodeT.mk [0x61] [] [] [], [0xF8, 0x01, 0xFC, 0x01, 0x61]), []) ∧
    (3 : Nat) < 5 :=
  ⟨rfl, rfl, by decide⟩

/-- C3 counterexample: the claim fails as stated.  The dictionary string
with id `0xF0` — below `0xF5`, so the claim requires a single byte — is
emitted by `Writer.string` as the two bytes `EC 03`, because the writer
switches to the `0xEC` page for every id above `0xEB`. -/
theorem c3_string_policy_counterexample :
    specTok.str2tok s240Bytes = some 0xF0 ∧
    (0xF0 : Int) < 0xF5 ∧
    Writer.string specTok s240Bytes = some [0xEC, 0x03] ∧
    ([0xEC, 0x03] : List Nat).length ≠ 1 := by
  refine ⟨by simp [specTok, s240Bytes, accountBytes], by norm_num, ?_, by decide⟩
  simp [Writer.string, specTok, s240Bytes, accountBytes, Writer.token]

/-- C3 (amended): `Writer.string`'s actual policy.  An id at most `0xEB`
gives the single byte `id`; an id in `[0xED, 0x1E1]` gives the pair
`EC (id - 0xED)`; a string absent from the dictionary is emitted as a JID
when it contains `'@'` and as raw `0xFC`/`0xFD` bytes otherwise.  (The
`0xFE` page of the claim is never used by `Writer.string`; ids `0xEC` and
above `0x1E1` are covered by C9.) -/
theorem c3_string_policy_amended (tt : TokTable) (s : List Nat) :
    (∀ t : Int, tt.str2tok s = some t → 0 ≤ t → t ≤ 0xEB →
        Writer.string tt s = some [t.toNat]) ∧
    (∀ t : Int, tt.str2tok s = some t → 0xED ≤ t → t ≤ 0x1E1 →
        Writer.string tt s = some [0xEC, (t - 0xED).toNat]) ∧
    (tt.str2tok s = none → 64 ∈ s →
        Writer.string tt s = Writer.jid tt (partAt s).1 (partAt s).2) ∧
    (tt.str2tok s = none → 64 ∉ s →
        Writer.string tt s = some (Writer.bytes s)) := by
  refine ⟨?_, ?_, ?_, ?_⟩
  · intro t htok h0 hEB
    rw [wstring_some tt s t htok, if_neg (by omega),
      token_eq_small t h0 (by omega)]
  · intro t htok hED h1E1
    rw [wstring_some tt s t htok, if_pos (by omega),
      token_eq_small 0xEC (by norm_num) (by norm_num),
      token_eq_small (t - 0xED) (by omega) (by omega)]
    rfl
  · intro htok hat
    unfold Writer.string
    rw [htok, dif_pos hat]
  · intro htok hat
    unfold Writer.string
    rw [htok, dif_neg hat]

/-- C3 witness: the four branches of the amended policy at concrete
strings. -/
theorem c3_string_policy_amended_witness :
    Writer.string specTok accountBytes = some [0x03] ∧
    Writer.string specTok s240Bytes = some [0xEC, 0x03] ∧
    Writer.string emptyTok [0x61, 64, 0x62] = Writer.jid emptyTok [0x61] [0x62] ∧
    Writer.string emptyTok [0x61] = some (Writer.bytes [0x61]) := by
  refine ⟨?_, ?_, ?_, ?_⟩
  · exact (c3_string_policy_amended specTok accountBytes).1 3
      (by simp [specTok, accountBytes]) (by norm_num) (by norm_num)
  · exact (c3_string_policy_amended specTok s240Bytes).2.1 0xF0
      (by simp [specTok, s240Bytes, accountBytes]) (by norm_num) (by norm_num)
  · exact (c3_string_policy_amended emptyTok [0x61, 64, 0x62]).2.2.1 rfl
      (by decide)
  · exact (c3_string_policy_amended emptyTok [0x61]).2.2.2 rfl (by decide)

/-- C4 counterexample: the claim fails as stated.  For a node whose data is
`"account"` — a string the dictionary maps to id `0x03`, which
`Writer.string` would emit as the single byte `03` — the writer still emits
the data slot as raw bytes `FC 07 "account"`, not as the token. -/
theorem c4_data_raw_counterexample :
    specTok.str2tok accountBytes = some 0x03 ∧
    Writer.string specTok accountBytes = some [0x03] ∧
    Writer._node specTok (NodeT.mk [0x6E] [] accountBytes []) =
      some ([0xF8, 0x02, 0xFC, 0x01, 0x6E, 0xFC, 0x07] ++ accountBytes) ∧
    ([0xF8, 0x02, 0xFC, 0x01, 0x6E, 0xFC, 0x07] ++ accountBytes) ≠
      [0xF8, 0x02, 0xFC, 0x01, 0x6E, 0x03] := by
  refine ⟨by simp [specTok, accountBytes], ?_, ?_, by decide⟩
  · simp [Writer.string, specTok, accountBytes, Writer.token]
  · simp [Writer._node, Writer.string, Writer.attributes, Writer.bytes,
      Writer.int8, Writer.list_start, specTok, accountBytes, s240Bytes,
      s482Bytes, s491Bytes, Writer.token]
    decide

/-- C4 (amended): whenever a node with non-empty data encodes at all, its
data slot is `Writer.bytes data` — the raw `0xFC`/`0xFD` form — regardless
of whether the dictionary knows the data string or whether it contains
`'@'`; the dictionary and JID forms are never consulted for the data
slot. -/
theorem c4_data_raw_amended (tt : TokTable) (nm : List Nat)
    (attrs : List (List Nat × List Nat)) (d : List Nat) (cs : List NodeT)
    (hd : d ≠ []) (bs : List Nat)
    (hw : Writer._node tt (NodeT.mk nm attrs d cs) = some bs) :
    ∃ sName sAttrs sChildren,
      Writer.string tt nm = some sName ∧
      Writer.attributes tt attrs = some sAttrs ∧
      bs = Writer.list_start (1 + (if attrs ≠ [] then 2 * attrs.length else 0)
          + (if cs.isEmpty then 0 else 1) + 1)
        ++ sName ++ sAttrs ++ Writer.bytes d ++ sChildren := by
  have hmk : Writer._node tt (NodeT.mk nm attrs d cs) =
      Option.bind (Writer.string tt nm) (fun sName =>
      Option.bind (Writer.attributes tt attrs) (fun sAttrs =>
      Option.bind (if cs.isEmpty then some ([] : List Nat)
          else Option.bind (Writer._nodeList tt cs) (fun csB =>
            some (Writer.list_start cs.length ++ csB)))
        (fun sChildren =>
        some (Writer.list_start (1 + (if attrs ≠ [] then 2 * attrs.length else 0)
            + (if cs.isEmpty then 0 else 1) + (if d ≠ [] then 1 else 0))
          ++ sName ++ sAttrs ++ (if d ≠ [] then Writer.bytes d else [])
          ++ sChildren)))) := by
    unfold Writer._node
    cases hcse : cs.isEmpty with
    | true => rfl
    | false =>
      cases hnl : Writer._nodeList tt cs with
      | none => simp only [hnl]; rfl
      | some csB => simp only [hnl]; rfl
  rw [hmk] at hw
  cases hn : Writer.string tt nm with
  | none => rw [hn] at hw; simp at hw
  | some sName =>
    cases ha : Writer.attributes tt attrs with
    | none => rw [hn, ha] at hw; simp at hw
    | some sAttrs =>
      rw [hn, ha] at hw
      simp only [Option.some_bind] at hw
      cases hc : (if cs.isEmpty then some ([] : List Nat)
          else Option.bind (Writer._nodeList tt cs) (fun csB =>
            some (Writer.list_start cs.length ++ csB))) with
      | none => rw [hc] at hw; simp at hw
      | some sCh =>
        rw [hc] at hw
        simp only [Option.some_bind, Option.some.injEq, if_pos hd] at hw
        exact ⟨sName, sAttrs, sCh, rfl, rfl, hw.symm⟩

/-- C4 witness: the amended statement at a concrete node — data `"account"`,
a string the dictionary knows. -/
theorem c4_data_raw_amended_witness :
    accountBytes ≠ [] ∧
    Writer._node specTok (NodeT.mk [0x6E] [] accountBytes []) =
      some ([0xF8, 0x02, 0xFC, 0x01, 0x6E, 0xFC, 0x07] ++ accountBytes) ∧
    (∃ sName sAttrs sChildren,
      Writer.string specTok [0x6E] = some sName ∧
      Writer.attributes specTok [] = some sAttrs ∧
      ([0xF8, 0x02, 0xFC, 0x01, 0x6E, 0xFC, 0x07] ++ accountBytes) =
        Writer.list_start (1
            + (if ([] : List (List Nat × List Nat)) ≠ [] then
                2 * ([] : List (List Nat × List Nat)).length else 0)
            + (if ([] : List NodeT).isEmpty then 0 else 1) + 1)
          ++ sName ++ sAttrs ++ Writer.bytes accountBytes ++ sChildren) := by
  have hw : Writer._node specTok (NodeT.mk [0x6E] [] accountBytes []) =
      some ([0xF8, 0x02, 0xFC, 0x01, 0x6E, 0xFC, 0x07] ++ accountBytes) := by
    simp [Writer._node, Writer.string, Writer.attributes, Writer.bytes,
      Writer.int8, Writer.list_start, specTok, accountBytes, s240Bytes,
      s482Bytes, s491Bytes, Writer.token]
    decide
  exact ⟨by decide, hw,
    c4_data_raw_amended specTok [0x6E] [] accountBytes [] (by decide) _ hw⟩

/-- C5: every frame `Writer.node` produces splits as a 3-byte header plus the
payload; the header's high nibble (as `Reader.read` extracts it) is `8` for
an encrypted frame and `0` for a plaintext one, and the 20-bit length field
recomposes to the payload byte count.  The length hypotheses say the payload
fits the 20-bit field at all. -/
theorem c5_frame_header (tt : TokTable) (wEnc : Option (List Nat → List Nat))
    (n : Option NodeT) (encArg : Option Bool) (out plain : List Nat)
    (hw : Writer.node tt wEnc n encArg = some (out, plain))
    (hp : plain.length < 2 ^ 20)
    (he : ∀ f, wEnc = some f → (f plain).length < 2 ^ 20) :
    ∃ H payload,
      out = Writer.int24 H ++ payload ∧
      ((H >>> 16) &&& 0xF0) >>> 4 = (if encArg.getD wEnc.isSome then 8 else 0) ∧
      ((H &&& 0xFFFF) ||| (((H >>> 16) &&& 0x0F) <<< 16)) = payload.length := by
  rw [wnode_frame] at hw
  have hp20 : (1048576 : Nat) = 2 ^ 20 := by norm_num
  cases hpo : (match n with
      | none => some [0x00]
      | some nd => Writer._node tt nd) with
  | none => rw [hpo] at hw; simp at hw
  | some p =>
    rw [hpo] at hw
    simp only [Option.some_bind] at hw
    cases henc : encArg.getD wEnc.isSome with
    | false =>
      rw [henc] at hw
      simp only [Bool.false_eq_true, if_false, Option.some.injEq,
        Prod.mk.injEq] at hw
      obtain ⟨hout, hpl⟩ := hw
      subst hpl
      have hlen : p.length < 1048576 := by rw [hp20]; exact hp
      refine ⟨p.length, p, hout.symm, ?_, ?_⟩
      · rw [if_neg (by simp [henc])]
        exact (header_plain_fields p.length hlen).1
      · exact (header_plain_fields p.length hlen).2
    | true =>
      rw [henc] at hw
      cases hwe : wEnc with
      | none => rw [hwe] at hw; simp at hw
      | some f =>
        rw [hwe] at hw
        simp only [if_true, Option.some_bind, Option.some.injEq,
          Prod.mk.injEq] at hw
        obtain ⟨hout, hpl⟩ := hw
        subst hpl
        have hlen : (f p).length < 1048576 := by
          rw [hp20]; exact he f hwe
        refine ⟨_, f p, hout.symm, ?_, ?_⟩
        · rw [if_pos (by simp [henc])]
          exact (header_enc_fields (f p).length hlen).2.1
        · exact (header_enc_fields (f p).length hlen).2.2

/-- C5 witness: one plaintext and one encrypted frame of the same stanza
(name `"a"`, the test cipher appends one MAC byte). -/
theorem c5_frame_header_witness :
    (Writer.node emptyTok none (some (NodeT.mk [0x61] [] [] [])) none =
        some ([0x00, 0x00, 0x05, 0xF8, 0x01, 0xFC, 0x01, 0x61],
              [0xF8, 0x01, 0xFC, 0x01, 0x61]) ∧
      ∃ H payload,
        [0x00, 0x00, 0x05, 0xF8, 0x01, 0xFC, 0x01, 0x61] =
          Writer.int24 H ++ payload ∧
        ((H >>> 16) &&& 0xF0) >>> 4 = 0 ∧
        ((H &&& 0xFFFF) ||| (((H >>> 16) &&& 0x0F) <<< 16)) = payload.length) ∧
    (Writer.node emptyTok (some (fun b => b ++ [0xAA]))
          (some (NodeT.mk [0x61] [] [] [])) none =
        some ([0x80, 0x00, 0x06, 0xF8, 0x01, 0xFC, 0x01, 0x61, 0xAA],
              [0xF8, 0x01, 0xFC, 0x01, 0x61]) ∧
      ∃ H payload,
        [0x80, 0x00, 0x06, 0xF8, 0x01, 0xFC, 0x01, 0x61, 0xAA] =
          Writer.int24 H ++ payload ∧
        ((H >>> 16) &&& 0xF0) >>> 4 = 8 ∧
        ((H &&& 0xFFFF) ||| (((H >>> 16) &&& 0x0F) <<< 16)) = payload.length) := by
  have hplain : Writer._node emptyTok (NodeT.mk [0x61] [] [] []) =
      some [0xF8, 0x01, 0xFC, 0x01, 0x61] := by
    simp [Writer._node, Writer.string, Writer.attributes, Writer.bytes,
      Writer.int8, Writer.list_start, emptyTok]
  have hw1 : Writer.node emptyTok none (some (NodeT.mk [0x61] [] [] [])) none =
      some ([0x00, 0x00, 0x05, 0xF8, 0x01, 0xFC, 0x01, 0x61],
            [0xF8, 0x01, 0xFC, 0x01, 0x61]) := by
    rw [wnode_frame]
    show Option.bind (Writer._node emptyTok (NodeT.mk [0x61] [] [] [])) _ = _
    rw [hplain]
    rfl
  have hw2 : Writer.node emptyTok (some (fun b => b ++ [0xAA]))
        (some (NodeT.mk [0x61] [] [] [])) none =
      some ([0x80, 0x00, 0x06, 0xF8, 0x01, 0xFC, 0x01, 0x61, 0xAA],
            [0xF8, 0x01, 0xFC, 0x01, 0x61]) := by
    rw [wnode_frame]
    show Option.bind (Writer._node emptyTok (NodeT.mk [0x61] [] [] [])) _ = _
    rw [hplain]
    rfl
  refine ⟨⟨hw1, ?_⟩, ⟨hw2, ?_⟩⟩
  · simpa using c5_frame_header emptyTok none _ none _ _ hw1 (by decide)
      (by intro f h; simp at h)
  · simpa using c5_frame_header emptyTok (some (fun b => b ++ [0xAA])) _ none
      _ _ hw2 (by decide)
      (by intro f h; rw [← Option.some.inj h]; decide)

/-- C6: the challenge handler installs the cipher pair derived from the
secret and the challenge data, builds a `response` node whose data is
`encrypt(number ++ challenge.data ++ timestamp, prepend_mac=false)`, and
passes `encrypt=False`, so the frame written is the plain framing of the
(cipher-output) payload even though an outbound cipher is now installed. -/
theorem c6_challenge_response (mkE : List Nat → List Nat → Encryption)
    (st : ClientState) (node : NodeT) (ts : List Nat) :
    (Client._challenge mkE st node ts).1.writerEncrypt
        = some (mkE st.secret node.data).encrypt ∧
    (Client._challenge mkE st node ts).1.readerDecrypt
        = some (mkE st.secret node.data).decrypt ∧
    (Client._challenge mkE st node ts).2.1 =
      NodeT.mk respName []
        ((mkE st.secret node.data).encrypt (st.number ++ node.data ++ ts) false)
        [] ∧
    (Client._challenge mkE st node ts).2.2 = some false ∧
    ∀ (tt : TokTable) (plain : List Nat),
      Writer._node tt (Client._challenge mkE st node ts).2.1 = some plain →
      Writer.node tt (wAdapt (Client._challenge mkE st node ts).1.writerEncrypt)
          (some (Client._challenge mkE st node ts).2.1)
          (Client._challenge mkE st node ts).2.2 =
        some (Writer.int24 plain.length ++ plain, plain) := by
  refine ⟨rfl, rfl, rfl, rfl, ?_⟩
  intro tt plain h
  exact wnode_plain_forced tt _ _ plain h

/-- C6 witness: a concrete challenge (`secret "2"`, data `"d"`, number `"1"`,
timestamp `"t"`, test cipher appending one MAC byte) and the resulting
18-byte plaintext-framed response. -/
theorem c6_challenge_response_witness :
    Writer._node emptyTok (Client._challenge mkE0 st0 chal0 [0x74]).2.1 =
      some ([0xF8, 0x02, 0xFC, 0x08] ++ respName ++
        [0xFC, 0x04, 0x31, 0x64, 0x74, 0xAA]) ∧
    Writer.node emptyTok
        (wAdapt (Client._challenge mkE0 st0 chal0 [0x74]).1.writerEncrypt)
        (some (Client._challenge mkE0 st0 chal0 [0x74]).2.1)
        (Client._challenge mkE0 st0 chal0 [0x74]).2.2 =
      some ([0x00, 0x00, 0x12] ++ ([0xF8, 0x02, 0xFC, 0x08] ++ respName ++
              [0xFC, 0x04, 0x31, 0x64, 0x74, 0xAA]),
            [0xF8, 0x02, 0xFC, 0x08] ++ respName ++
              [0xFC, 0x04, 0x31, 0x64, 0x74, 0xAA]) := by
  have h : Writer._node emptyTok (Client._challenge mkE0 st0 chal0 [0x74]).2.1 =
      some ([0xF8, 0x02, 0xFC, 0x08] ++ respName ++
        [0xFC, 0x04, 0x31, 0x64, 0x74, 0xAA]) := by
    simp [Client._challenge, mkE0, st0, chal0, Client.initState, respName,
      Writer._node, Writer.string, Writer.attributes, Writer.bytes,
      Writer.int8, Writer.list_start, emptyTok, NodeT.name, NodeT.attrs,
      NodeT.data, NodeT.children] <;> decide
  refine ⟨h, ?_⟩
  have h2 := (c6_challenge_response mkE0 st0 chal0 [0x74]).2.2.2.2 emptyTok _ h
  simpa [Writer.int24, respName] using h2

/-- C7 counterexample: the claim fails as stated.  With one registered
callback already latched with `Except.ok 42`, `register_callback_and_wait`
returns `Except.ok none` (the method has no `return`, so
`wait_for_callback`'s value is discarded), not `Except.ok (some 42)`. -/
theorem c7_return_value_counterexample :
    Client.register_callback_and_wait (fun w => w) 1 [⟨0, [0x6D]⟩]
        ⟨[], [some (Except.ok 42)]⟩ =
      some (⟨[([0x6D], [])], [some (Except.ok 42)]⟩, Except.ok none) ∧
    (Except.ok (none : Option Nat) : Except Nat (Option Nat)) ≠
      Except.ok (some 42) := by
  exact ⟨rfl, by simp⟩

/-- `register_callback_and_wait` once the loop's outcome is known. -/
theorem rcw_eq (step : CBWorld → CBWorld) (fuel : Nat) (cbs : List CBInfo)
    (w w1 : CBWorld) (cb : CBInfo)
    (hwl : Client.waitLoop step cbs fuel (Client.register_callback cbs w) =
      some (w1, cb)) :
    Client.register_callback_and_wait step fuel cbs w =
      match w1.latch cb.id with
      | some (Except.error e) =>
        some (Client.unregister_callback cbs w1, Except.error e)
      | some (Except.ok _) =>
        some (Client.unregister_callback cbs w1, Except.ok none)
      | none => none := by
  simp only [Client.register_callback_and_wait, Client.wait_for_callback, hwl]
  cases w1.latch cb.id with
  | none => rfl
  | some res => cases res <;> rfl

/-- C7 (amended): `register_callback_and_wait` registers the callbacks,
drives the loop until one of the given callbacks has latched, unregisters
them all, and raises a latched `Exception` result; but a latched ordinary
result is discarded and `None` is returned in its place. -/
theorem c7_register_and_wait_amended (step : CBWorld → CBWorld) (fuel : Nat)
    (cbs : List CBInfo) (w w2 : CBWorld) (r : Except Nat (Option Nat))
    (h : Client.register_callback_and_wait step fuel cbs w = some (w2, r)) :
    ∃ w1 cb, cb ∈ cbs ∧
      Client.waitLoop step cbs fuel (Client.register_callback cbs w) =
        some (w1, cb) ∧
      (w1.latch cb.id).isSome = true ∧
      w2 = Client.unregister_callback cbs w1 ∧
      (∀ e, w1.latch cb.id = some (Except.error e) → r = Except.error e) ∧
      (∀ v, w1.latch cb.id = some (Except.ok v) → r = Except.ok none) := by
  cases hwl : Client.waitLoop step cbs fuel (Client.register_callback cbs w) with
  | none =>
    have hnone : Client.register_callback_and_wait step fuel cbs w = none := by
      simp only [Client.register_callback_and_wait, Client.wait_for_callback,
        hwl]
    rw [hnone] at h
    simp at h
  | some p =>
    obtain ⟨w1, cb⟩ := p
    obtain ⟨hmem, hsome⟩ := waitLoop_found step cbs fuel _ w1 cb hwl
    have heq := rcw_eq step fuel cbs w w1 cb hwl
    cases hl : w1.latch cb.id with
    | none => rw [hl] at hsome; simp at hsome
    | some res =>
      cases res with
      | error e =>
        rw [hl] at heq
        have heq' : Client.register_callback_and_wait step fuel cbs w =
            some (Client.unregister_callback cbs w1, Except.error e) := heq
        rw [heq'] at h
        simp only [Option.some.injEq, Prod.mk.injEq] at h
        obtain ⟨hw2, hr⟩ := h
        refine ⟨w1, cb, hmem, rfl, hsome, hw2.symm, ?_, ?_⟩
        · intro e2 he2
          rw [hl] at he2
          have he3 : e = e2 := Except.error.inj (Option.some.inj he2)
          rw [← hr, he3]
        · intro v hv
          rw [hl] at hv
          exact absurd (Option.some.inj hv) (by simp)
      | ok v =>
        rw [hl] at heq
        have heq' : Client.register_callback_and_wait step fuel cbs w =
            some (Client.unregister_callback cbs w1, Except.ok none) := heq
        rw [heq'] at h
        simp only [Option.some.injEq, Prod.mk.injEq] at h
        obtain ⟨hw2, hr⟩ := h
        refine ⟨w1, cb, hmem, rfl, hsome, hw2.symm, ?_, ?_⟩
        · intro e2 he2
          rw [hl] at he2
          exact absurd (Option.some.inj he2) (by simp)
        · intro v2 hv2
          exact hr.symm

/-- C7 witness: the amended statement at one registered callback latched
with the `Exception` result `Except.error 7`. -/
theorem c7_register_and_wait_amended_witness :
    Client.register_callback_and_wait (fun w => w) 1 [⟨0, [0x6D]⟩]
        ⟨[], [some (Except.error 7)]⟩ =
      some (⟨[([0x6D], [])], [some (Except.error 7)]⟩, Except.error 7) ∧
    (∃ w1 cb, cb ∈ [(⟨0, [0x6D]⟩ : CBInfo)] ∧
      Client.waitLoop (fun w => w) [(⟨0, [0x6D]⟩ : CBInfo)] 1
          (Client.register_callback [⟨0, [0x6D]⟩] ⟨[], [some (Except.error 7)]⟩) =
        some (w1, cb) ∧
      (w1.latch cb.id).isSome = true ∧
      (⟨[([0x6D], [])], [some (Except.error 7)]⟩ : CBWorld) =
        Client.unregister_callback [⟨0, [0x6D]⟩] w1 ∧
      (∀ e, w1.latch cb.id = some (Except.error e) →
        (Except.error 7 : Except Nat (Option Nat)) = Except.error e) ∧
      (∀ v, w1.latch cb.id = some (Except.ok v) →
        (Except.error 7 : Except Nat (Option Nat)) = Except.ok none)) :=
  ⟨rfl, c7_register_and_wait_amended (fun w => w) 1 [⟨0, [0x6D]⟩]
    ⟨[], [some (Except.error 7)]⟩ ⟨[([0x6D], [])], [some (Except.error 7)]⟩
    (Except.error 7) rfl⟩

/-- C8: the claim describes intended behaviour the code does not have.
`_msgid` formats `<prefix>-<timestamp>-<counter>` but never advances
`self.counter`: the state out equals the state in, so two calls in the same
second produce the identical id (the docstring promises unique ids), and the
"reset" on disconnect is vacuous — the counter is still at its initial 0. -/
theorem c8_msgid_counter_never_advances :
    (∀ (st : ClientState) (pfx ts : List Nat),
      (Client._msgid st pfx ts).2 = st) ∧
    (Client._msgid st0 [0x6D] [0x74]).1 = [0x6D, 45, 0x74, 45, 48] ∧
    (Client._msgid (Client._msgid st0 [0x6D] [0x74]).2 [0x6D] [0x74]).1 =
      (Client._msgid st0 [0x6D] [0x74]).1 ∧
    Client._disconnect st0 = st0 :=
  ⟨fun _ _ _ => rfl, rfl, rfl, rfl⟩

/-- C9: `Writer.token` yields nothing beyond id `0x1F4`, and a dictionary
string whose id exceeds `0x1E1` has no well-formed encoding: either
`Writer.string` already returns `None` (id above `0x2E1`, where
`token(id - 0xED)` is `None`), or it emits `EC FE xx`, of which the reader
consumes only `EC FE` — no output of `Writer.string` decodes back to the
string with nothing left over. -/
theorem c9_token_page_bounds :
    (∀ t : Int, 0x1F4 < t → Writer.token t = none) ∧
    (∀ (tt : TokTable) (s : List Nat) (t : Int), tt.str2tok s = some t →
      (0x1E1 : Int) < t →
      ¬ ∃ bs, Writer.string tt s = some bs ∧
          Reader.string tt (bs.length + 1) bs = (Except.ok s, [])) := by
  constructor
  · intro t ht
    unfold Writer.token
    rw [if_neg (by omega), if_neg (by omega)]
  · rintro tt s t htok hgt ⟨bs, hbs, hdec⟩
    rw [wstring_some tt s t htok, if_pos (by omega : t > 0xEB)] at hbs
    have hec : Writer.token (0xEC : Int) = some [0xEC] := by
      unfold Writer.token
      rw [if_pos (by norm_num), if_pos (by norm_num)]
      rfl
    by_cases h2 : t ≤ 0x2E1
    · have htk : Writer.token (t - 0xED) =
          some [0xFE, (t - 0xED - 0xF5).toNat] := by
        unfold Writer.token
        rw [if_neg (by omega), if_pos (by omega)]
      rw [hec, htk] at hbs
      simp only [Option.bind_eq_bind, Option.some_bind, Option.pure_def,
        Option.some.injEq, List.cons_append, List.nil_append] at hbs
      have hbs' : bs = [0xEC, 0xFE, (t - 0xED - 0xF5).toNat] := hbs.symm
      subst hbs'
      have hdec' : Reader.string tt (3 + 1)
          (0xEC :: 0xFE :: [(t - 0xED - 0xF5).toNat]) = (Except.ok s, []) :=
        hdec
      rw [rstring_step_ec tt 3 0xFE [(t - 0xED - 0xF5).toNat]] at hdec'
      have hsnd := congrArg Prod.snd hdec'
      simp at hsnd
    · have htk : Writer.token (t - 0xED) = none := by
        unfold Writer.token
        rw [if_neg (by omega), if_neg (by omega)]
      rw [hec, htk] at hbs
      simp at hbs

/-- C9 witness: at id `501 > 0x1F4` the token map is `None`; the dictionary
string with id `0x1E2` has no encoding that decodes back to it. -/
theorem c9_token_page_bounds_witness :
    (0x1F4 : Int) < 501 ∧
    Writer.token (501 : Int) = none ∧
    specTok.str2tok s482Bytes = some 0x1E2 ∧
    ((0x1E1 : Int) < 0x1E2) ∧
    ¬ ∃ bs, Writer.string specTok s482Bytes = some bs ∧
        Reader.string specTok (bs.length + 1) bs =
          (Except.ok s482Bytes, []) := by
  refine ⟨by norm_num, c9_token_page_bounds.1 501 (by norm_num), ?_,
    by norm_num, c9_token_page_bounds.2 specTok s482Bytes 0x1E2 ?_
      (by norm_num)⟩
  · simp [specTok, s482Bytes, accountBytes, s240Bytes]
  · simp [specTok, s482Bytes, accountBytes, s240Bytes]

/-- C10: an inbound `iq` stanza with no children is ignored — the handler
returns the state unchanged and writes nothing, whatever the `type`
attribute says. -/
theorem c10_iq_empty_children (st : ClientState) (n : NodeT)
    (h : n.children = []) : Client._iq st n = (st, []) := by
  simp [Client._iq, h]

/-- C10 witness: an `iq type="get"` with no children. -/
theorem c10_iq_empty_children_witness :
    (NodeT.mk iqName [(typeName, getName)] [] []).children = [] ∧
    Client._iq st0 (NodeT.mk iqName [(typeName, getName)] [] []) = (st0, []) :=
  ⟨rfl, c10_iq_empty_children st0 (NodeT.mk iqName [(typeName, getName)] [] [])
    rfl⟩
